import Mathlib

/-!
Verification of the pigsty checklist/scan-result accessor layer.

The development shallowly embeds the two Python modules
`pigsty/resources/checklist.py` and `pigsty/resources/openscap.py` together
with the fragment of `xml.etree.ElementTree` path evaluation that they rely
on.  XML documents are modelled as ordered element trees (`XNode`); the
`find`/`findall` mini-language of ElementTree (`ElementPath`) is modelled by
`parsePath`/`evalStep` over index paths, and file contents are modelled as
the parsed element tree (abstracting the `ET.write`/`ET.parse` round trip).
-/

/- An XML element: tag, attributes, optional text, optional tail text and
ordered children.  `XNodes` is the (mutually inductive) list of children,
kept as a separate type so that all recursive functions are structural and
kernel-reducible. -/
mutual

inductive XNode where
  | mk (tag : String) (attrs : List (String × String)) (text : Option String)
       (tailText : Option String) (children : XNodes)
  deriving DecidableEq

inductive XNodes where
  | nil
  | cons (head : XNode) (tail : XNodes)
  deriving DecidableEq

end

def XNode.tag : XNode → String
  | .mk t _ _ _ _ => t

def XNode.attrs : XNode → List (String × String)
  | .mk _ a _ _ _ => a

def XNode.text : XNode → Option String
  | .mk _ _ tx _ _ => tx

def XNode.tailText : XNode → Option String
  | .mk _ _ _ tl _ => tl

def XNode.children : XNode → XNodes
  | .mk _ _ _ _ cs => cs

/-- Attribute lookup, `elem.get(key)` in ElementTree. -/
def XNode.attr (n : XNode) (k : String) : Option String :=
  (n.attrs.find? (fun p => p.1 == k)).map (·.2)

def XNodes.toList : XNodes → List XNode
  | .nil => []
  | .cons c cs => c :: cs.toList

def XNodes.length : XNodes → Nat
  | .nil => 0
  | .cons _ cs => cs.length + 1

/- The node addressed by an index path (child indices from the root). -/
mutual

def nodeAt : XNode → List Nat → Option XNode
  | n, [] => some n
  | .mk _ _ _ _ cs, i :: p => nodeAtL cs i p

def nodeAtL : XNodes → Nat → List Nat → Option XNode
  | .nil, _, _ => none
  | .cons c _, 0, p => nodeAt c p
  | .cons _ cs, i + 1, p => nodeAtL cs i p

end

/- Replace the text of one node (`elem.text = value` on the node addressed
by the given index path); the tree is returned unchanged when the path does
not resolve. -/
mutual

def setTextAt : XNode → List Nat → Option String → XNode
  | .mk t a _ tl cs, [], s => .mk t a s tl cs
  | .mk t a tx tl cs, i :: p, s => .mk t a tx tl (setTextAtL cs i p s)

def setTextAtL : XNodes → Nat → List Nat → Option String → XNodes
  | .nil, _, _, _ => .nil
  | .cons c cs, 0, p, s => .cons (setTextAt c p s) cs
  | .cons c cs, i + 1, p, s => .cons c (setTextAtL cs i p s)

end

/- All index paths of the subtree in preorder (document order), starting
with the empty path for the node itself.  This is the order of
`elem.iter()` in ElementTree. -/
mutual

def subPaths : XNode → List (List Nat)
  | .mk _ _ _ _ cs => [] :: subPathsL 0 cs

def subPathsL : Nat → XNodes → List (List Nat)
  | _, .nil => []
  | i, .cons c cs => (subPaths c).map (i :: ·) ++ subPathsL (i + 1) cs

end

/- Joined inner text of an element, `"".join(elem.itertext())`: the
element's own text, then recursively each child's inner text followed by
that child's tail text. -/
mutual

def XNode.itertext : XNode → String
  | .mk _ _ tx _ cs => tx.getD "" ++ XNodes.itertextL cs

def XNodes.itertextL : XNodes → String
  | .nil => ""
  | .cons c cs => c.itertext ++ (c.tailText.getD "") ++ XNodes.itertextL cs

end

/-- Positions (counting from `i`) of the list members satisfying `p`. -/
def idxsFrom (p : XNode → Bool) (i : Nat) : List XNode → List Nat
  | [] => []
  | c :: cs => if p c then i :: idxsFrom p (i + 1) cs else idxsFrom p (i + 1) cs

/-- Indices of the direct children that carry a given tag. -/
def childIdxsTag (n : XNode) (t : String) : List Nat :=
  idxsFrom (fun c => c.tag == t) 0 n.children.toList

/-- Indices of the direct children with a given tag whose joined inner text
equals `v` — the ElementTree `tag[.="v"]` child-plus-predicate selection. -/
def childIdxsTagText (n : XNode) (t v : String) : List Nat :=
  idxsFrom (fun c => c.tag == t && c.itertext == v) 0 n.children.toList

/-- Indices of the direct children with a given tag whose attribute `a`
equals `v` — the ElementTree `tag[@a="v"]` child-plus-predicate selection. -/
def childIdxsTagAttr (n : XNode) (t a v : String) : List Nat :=
  idxsFrom (fun c => c.tag == t && c.attr a == some v) 0 n.children.toList

/-- Subtree paths (excluding the root itself) whose node carries the given
tag, in preorder: the ElementTree `elem.iter(tag)` stream with `elem`
removed, as used by the `//` descendant step. -/
def descIdxs (n : XNode) (t : String) : List (List Nat) :=
  (subPaths n).filter fun q =>
    !q.isEmpty && ((nodeAt n q).map XNode.tag == some t)

/-- Subtree nodes with the given tag in preorder, including the root when
its tag matches: `elem.iter(tag)` itself. -/
def iterTag (n : XNode) (t : String) : List XNode :=
  (subPaths n).filterMap fun q =>
    match nodeAt n q with
    | some m => if m.tag == t then some m else none
    | none => none

/-!
The fragment of the ElementTree `ElementPath` language used by pigsty.
A path is a `/`-separated sequence of steps: `.` (self), `..` (parent,
deduplicated, never above the start node), `//tag` (preorder descendants
with the tag), `tag` (children with the tag), and `tag[.="v"]` /
`tag[@a="v"]` (children with the tag filtered by joined inner text /
attribute value).  A `pfx:tag` name is expanded through the namespace map
exactly as `xpath_tokenizer` does; an unknown prefix is a syntax error
(parse failure).
-/

inductive Step where
  | self
  | parent
  | descendant (tag : String)
  | child (tag : String)
  | childText (tag : String) (value : String)
  | childAttr (tag : String) (attrName : String) (value : String)
  deriving DecidableEq

def lbrace : Char := Char.ofNat 123

def rbrace : Char := Char.ofNat 125

/-- Characters accepted inside an unqualified tag token (conservative
subset of the ElementPath tokenizer's tag character class; all tags used
by the repository are covered). -/
def isTagChar (c : Char) : Bool :=
  c.isAlpha || c.isDigit || c == '_' || c == '-'

def validTagChars (l : List Char) : Bool :=
  !l.isEmpty && l.all isTagChar

/-- Split a character list on a separator (the segments between `/`). -/
def splitOnChar (sep : Char) : List Char → List (List Char)
  | [] => [[]]
  | c :: cs =>
    if c = sep then [] :: splitOnChar sep cs
    else
      match splitOnChar sep cs with
      | [] => [[c]]
      | s :: ss => (c :: s) :: ss

/-- Expand a (possibly `prefix:`-qualified) tag token through the
namespace map, producing the `{uri}local` form ElementTree compares
against; an unknown prefix or malformed token fails (SyntaxError). -/
def resolveTag (ns : List (String × String)) (l : List Char) : Option (List Char) :=
  if l.contains ':' then
    let pre := l.takeWhile (· ≠ ':')
    let loc := (l.dropWhile (· ≠ ':')).tail
    if validTagChars pre && validTagChars loc then
      match (ns.find? (fun p => p.1.data == pre)).map (·.2) with
      | some uri => some (lbrace :: uri.data ++ rbrace :: loc)
      | none => none
    else none
  else if validTagChars l then some l else none

/-- Parse the bracketed predicate of a segment, given the already resolved
tag: `[.="v"]` (inner-text equality) or `[@a="v"]` (attribute equality). -/
def parsePred (tg : String) (inner : List Char) : Option Step :=
  match inner with
  | '.' :: '=' :: '"' :: rest =>
    let v := rest.takeWhile (· ≠ '"')
    if rest.dropWhile (· ≠ '"') = ['"'] then some (.childText tg ⟨v⟩) else none
  | '@' :: rest =>
    let nm := rest.takeWhile (· ≠ '=')
    (match rest.dropWhile (· ≠ '=') with
     | '=' :: '"' :: rest2 =>
       let v := rest2.takeWhile (· ≠ '"')
       if validTagChars nm && rest2.dropWhile (· ≠ '"') = ['"'] then
         some (.childAttr tg ⟨nm⟩ ⟨v⟩)
       else none
     | _ => none)
  | _ => none

/-- Parse one `/`-separated segment standing in child position. -/
def parseSeg (ns : List (String × String)) (seg : List Char) : Option Step :=
  if seg = ['.'] then some .self
  else if seg = ['.', '.'] then some .parent
  else
    let tagPart := seg.takeWhile (· ≠ '[')
    match resolveTag ns tagPart with
    | none => none
    | some rt =>
      match seg.dropWhile (· ≠ '[') with
      | [] => some (.child ⟨rt⟩)
      | '[' :: inner =>
        if inner.getLast? = some ']' then parsePred ⟨rt⟩ inner.dropLast else none
      | _ => none

/-- Assemble the steps of a segment list; an empty segment (from `//`)
combines with the following plain tag into a descendant step. -/
def buildSteps (ns : List (String × String)) : List (List Char) → Option (List Step)
  | [] => some []
  | [] :: tagSeg :: rest =>
    (match resolveTag ns tagSeg with
     | some rt => (buildSteps ns rest).map (Step.descendant ⟨rt⟩ :: ·)
     | none => none)
  | [] :: [] => none
  | seg :: rest => (parseSeg ns seg).bind fun st => (buildSteps ns rest).map (st :: ·)

/-- Parse an ElementPath pattern; `none` models a `SyntaxError` escaping
from path compilation. -/
def parsePath (ns : List (String × String)) (path : String) : Option (List Step) :=
  match path.data with
  | [] => none
  | '/' :: _ => none
  | l => buildSteps ns (splitOnChar '/' l)

/-- Deduplicate a path list keeping first occurrences (the `..` step's
`result_map`). -/
def dedupPaths (l : List (List Nat)) : List (List Nat) :=
  l.foldl (fun acc p => if acc.contains p then acc else acc ++ [p]) []

/-- Evaluate one step on a list of context paths (all relative to the
start node `root`), in ElementTree's document order. -/
def evalStep (root : XNode) (st : Step) (ctxs : List (List Nat)) : List (List Nat) :=
  match st with
  | .self => ctxs
  | .parent => dedupPaths (ctxs.filterMap fun c =>
      match c with
      | [] => none
      | _ => some c.dropLast)
  | .descendant t => ctxs.flatMap fun c =>
      match nodeAt root c with
      | some n => (descIdxs n t).map (c ++ ·)
      | none => []
  | .child t => ctxs.flatMap fun c =>
      match nodeAt root c with
      | some n => (childIdxsTag n t).map fun j => c ++ [j]
      | none => []
  | .childText t v => ctxs.flatMap fun c =>
      match nodeAt root c with
      | some n => (childIdxsTagText n t v).map fun j => c ++ [j]
      | none => []
  | .childAttr t a v => ctxs.flatMap fun c =>
      match nodeAt root c with
      | some n => (childIdxsTagAttr n t a v).map fun j => c ++ [j]
      | none => []

def evalSteps (root : XNode) (steps : List Step) : List (List Nat) :=
  steps.foldl (fun cs st => evalStep root st cs) [[]]

/-- `elem.findall(path, ns)` as index paths; `none` is a SyntaxError. -/
def etFindAllPaths (root : XNode) (path : String)
    (ns : List (String × String)) : Option (List (List Nat)) :=
  (parsePath ns path).map (evalSteps root)

/-- `elem.find(path, ns)` as an index path; outer `none` is a SyntaxError,
inner `none` means no node matched. -/
def etFindPath (root : XNode) (path : String)
    (ns : List (String × String)) : Option (Option (List Nat)) :=
  (etFindAllPaths root path ns).map List.head?

/-- `elem.find(path, ns)` returning the node itself. -/
def etFindNode (root : XNode) (path : String)
    (ns : List (String × String)) : Option (Option XNode) :=
  (etFindPath root path ns).map (fun po => po.bind (nodeAt root))

/-- `elem.findall(path, ns)` returning the nodes themselves. -/
def etFindAllNodes (root : XNode) (path : String)
    (ns : List (String × String)) : Option (List XNode) :=
  (etFindAllPaths root path ns).map (fun ps => ps.filterMap (nodeAt root))

/-!
Embedding of `pigsty/resources/checklist.py`.
-/

/-- The Python exceptions surfaced by the checklist layer. -/
inductive CklError where
  | keyError (key : String)
  | permissionError
  | attributeError
  | pathSyntaxError
  | fileExistsError
  deriving DecidableEq

/-- `DictNode`: a dict-like view over one element, configured with a
lookup pattern (`pfx`/`sfx` around the key) and an immutability flag. -/
structure DictNode where
  node : XNode
  pfx : String
  sfx : String
  immutable : Bool
  deriving DecidableEq

/-- `DictNode.get`: find the node at `pfx + key + sfx` and return its
text; a failed find raises `AttributeError`, re-raised as `KeyError`. -/
def DictNode.get (d : DictNode) (key : String) : Except CklError (Option String) :=
  match etFindPath d.node (d.pfx ++ key ++ d.sfx) [] with
  | none => .error .pathSyntaxError
  | some none => .error (.keyError key)
  | some (some p) => .ok ((nodeAt d.node p).bind XNode.text)

/-- `DictNode.set`: refuse immutable views with `PermissionError` before
any lookup; otherwise overwrite the found node's text, raising `KeyError`
when the path does not resolve.  The second component is the backing tree
after the call (unchanged whenever an error is raised). -/
def DictNode.set (d : DictNode) (key value : String) :
    Except CklError Unit × XNode :=
  if d.immutable then (.error .permissionError, d.node)
  else
    match etFindPath d.node (d.pfx ++ key ++ d.sfx) [] with
    | none => (.error .pathSyntaxError, d.node)
    | some none => (.error (.keyError key), d.node)
    | some (some p) => (.ok (), setTextAt d.node p (some value))

/-- `DictNode.items`: the default, attribute-style iteration — `(tag,
text)` for each direct child. -/
def DictNode.items (d : DictNode) : List (String × Option String) :=
  d.node.children.toList.map fun c => (c.tag, c.text)

/-- `AssetNode(node)`: mutable view with pattern `.//KEY`. -/
def AssetNode.ofNode (n : XNode) : DictNode :=
  ⟨n, ".//", "", false⟩

/-- `StigInfoNode(node)`: immutable view with pattern
`.//SI_DATA/SID_NAME[.="KEY"]/../SID_DATA`. -/
def StigInfoNode.ofNode (n : XNode) : DictNode :=
  ⟨n, ".//SI_DATA/SID_NAME[.=\"", "\"]/../SID_DATA", true⟩

/-- `VulnNode(node)`: immutable view with pattern
`.//STIG_DATA/VULN_ATTRIBUTE[.="KEY"]/../ATTRIBUTE_DATA`. -/
def VulnNode.ofNode (n : XNode) : DictNode :=
  ⟨n, ".//STIG_DATA/VULN_ATTRIBUTE[.=\"", "\"]/../ATTRIBUTE_DATA", true⟩

/-- Left-to-right effectful map (a Python comprehension: the first
exception raised propagates). -/
def exceptMapList (l : List A) (f : A → Except E B) : Except E (List B) :=
  match l with
  | [] => .ok []
  | a :: l2 =>
    match f a with
    | .error e => .error e
    | .ok b => (exceptMapList l2 f).map (b :: ·)

/-- `StigInfoNode.items`: for each direct child group, look up
`.//SID_NAME` (an absent name node raises `AttributeError`, uncaught) and
`.//SID_DATA`; an absent value node is caught and yields the empty string
(the `makeelement` call in the handler builds a detached element and has
no further effect). -/
def stigInfoItems (n : XNode) : Except CklError (List (Option String × Option String)) :=
  exceptMapList n.children.toList fun sid =>
    match etFindNode sid ".//SID_NAME" [] with
    | none => .error .pathSyntaxError
    | some none => .error .attributeError
    | some (some kn) =>
      match etFindNode sid ".//SID_DATA" [] with
      | none => .error .pathSyntaxError
      | some none => .ok (kn.text, some "")
      | some (some vn) => .ok (kn.text, vn.text)

/-- `VulnNode.items`: over every `STIG_DATA` descendant group, read
`.//VULN_ATTRIBUTE` and `.//ATTRIBUTE_DATA`; there is no handler here, so
an absent name or value node raises `AttributeError`. -/
def vulnItems (n : XNode) : Except CklError (List (Option String × Option String)) :=
  exceptMapList (iterTag n "STIG_DATA") fun x =>
    match etFindNode x ".//VULN_ATTRIBUTE" [] with
    | none => .error .pathSyntaxError
    | some none => .error .attributeError
    | some (some kn) =>
      match etFindNode x ".//ATTRIBUTE_DATA" [] with
      | none => .error .pathSyntaxError
      | some none => .error .attributeError
      | some (some vn) => .ok (kn.text, vn.text)

/-- `Checklist._load_stigs`: `root.findall(".//STIGS/iSTIG")`, as index
paths (the path is constant and always parses, so the `none` branch is
unreachable). -/
def stigPathsCkl (root : XNode) : List (List Nat) :=
  match etFindAllPaths root ".//STIGS/iSTIG" [] with
  | some l => l
  | none => []

/-- Paths of the `VULN` records of all loaded stigs:
`stig.node.findall("VULN")` for every stig, as root-relative paths. -/
def vulnPathsCkl (root : XNode) : List (List Nat) :=
  (stigPathsCkl root).flatMap fun sp =>
    match nodeAt root sp with
    | some sn => (childIdxsTag sn "VULN").map fun j => sp ++ [j]
    | none => []

/-- `Checklist._load_asset`: path of `root.find(".//ASSET")`. -/
def assetPathCkl (root : XNode) : Option (List Nat) :=
  match etFindPath root ".//ASSET" [] with
  | some po => po
  | none => none

/-- Path of `stig.node.find(".//STIG_INFO")`, root-relative. -/
def infoPathCkl (root : XNode) (sp : List Nat) : Option (List Nat) :=
  match nodeAt root sp with
  | some sn =>
    (match etFindPath sn ".//STIG_INFO" [] with
     | some (some p) => some (sp ++ p)
     | _ => none)
  | none => none

/-- Index of the child found by `vuln.node.find("STATUS")` (a plain child
step returns the first child with the tag). -/
def statusChildIdx (root : XNode) (vp : List Nat) : Option Nat :=
  match nodeAt root vp with
  | some vn => (childIdxsTag vn "STATUS").head?
  | none => none

/-- The `VulnNode.status` property: `self.node.find("STATUS").text`, an
absent child raising `AttributeError`. -/
def vulnStatusAt (root : XNode) (vp : List Nat) : Except CklError (Option String) :=
  match statusChildIdx root vp with
  | some i => .ok ((nodeAt root (vp ++ [i])).bind XNode.text)
  | none => .error .attributeError

/-- The shared shape of the five mutable review-field getters:
`self.node.find(TAG).text`. -/
def vulnFieldAt (root : XNode) (vp : List Nat) (t : String) :
    Except CklError (Option String) :=
  match nodeAt root vp with
  | some vn =>
    (match (childIdxsTag vn t).head? with
     | some i => .ok ((nodeAt root (vp ++ [i])).bind XNode.text)
     | none => .error .attributeError)
  | none => .error .attributeError

/-- The `VulnNode.status` setter: `self.node.find("STATUS").text = value`,
mutating the tree in place. -/
def setVulnStatusAt (root : XNode) (vp : List Nat) (v : String) :
    Except CklError XNode :=
  match statusChildIdx root vp with
  | some i => .ok (setTextAt root (vp ++ [i]) (some v))
  | none => .error .attributeError

/-- The `vuln_num` property:
`self.node.find('.//STIG_DATA/VULN_ATTRIBUTE[.="Vuln_Num"]/../ATTRIBUTE_DATA').text`. -/
def vulnNumAt (root : XNode) (vp : List Nat) : Except CklError (Option String) :=
  match nodeAt root vp with
  | some vn =>
    (match etFindNode vn ".//STIG_DATA/VULN_ATTRIBUTE[.=\"Vuln_Num\"]/../ATTRIBUTE_DATA" [] with
     | none => .error .pathSyntaxError
     | some none => .error .attributeError
     | some (some m) => .ok m.text)
  | none => .error .attributeError

/-- The asset view's `items()` (and hence `as_dict`) read on a loaded
checklist: `(tag, text)` of the direct children of the `ASSET` node. -/
def assetItemsCkl (root : XNode) : Option (List (String × Option String)) :=
  (assetPathCkl root).bind fun a =>
    (nodeAt root a).map fun n => (AssetNode.ofNode n).items

/-- The benchmark-info `items()` of every loaded stig. -/
def infoItemsCkl (root : XNode) :
    List (Option (Except CklError (List (Option String × Option String)))) :=
  (stigPathsCkl root).map fun sp =>
    (infoPathCkl root sp).bind fun ip => (nodeAt root ip).map stigInfoItems

/-- A file system for `Checklist.save`/`load`: paths to file contents,
a file's content being the parsed element tree (the `ET.write`/`ET.parse`
serialization round trip is abstracted away). -/
def FS : Type := String → Option XNode

/-- `Checklist.load` reading an already-parsed tree from the file
system. -/
def Checklist.loadTree (fs : FS) (path : String) : Option XNode := fs path

/-- `Checklist.save(output_file, force)`: fail with `FileExistsError`
when the target exists and `force` is not set; otherwise (unlinking any
existing file first) write the serialized in-memory tree.  Parent
directory creation is not modelled. -/
def Checklist.save (tree : XNode) (fs : FS) (path : String) (force : Bool) :
    Except CklError Unit × FS :=
  match fs path with
  | some _ =>
    if force then (.ok (), fun q => if q = path then some tree else fs q)
    else (.error .fileExistsError, fs)
  | none => (.ok (), fun q => if q = path then some tree else fs q)

/-!
Embedding of `pigsty/resources/openscap.py`.
-/

/-- The `NS` prefix map passed to the namespaced queries. -/
def NS : List (String × String) := [
  ("XMLSchema", "http://oval.mitre.org/XMLSchema/oval-results-5"),
  ("xccdf", "http://checklists.nist.gov/xccdf/1.2"),
  ("arf", "http://scap.nist.gov/schema/asset-reporting-format/1.1"),
  ("oval-definitions", "http://oval.mitre.org/XMLSchema/oval-definitions-5"),
  ("scap", "http://scap.nist.gov/schema/scap/source/1.2"),
  ("oval-characteristics", "http://oval.mitre.org/XMLSchema/oval-system-characteristics-5"),
  ("oval-object", "http://oval.mitre.org/XMLSchema/oval-definitions-5#independent"),
  ("cpe-dict", "http://cpe.mitre.org/dictionary/2.0"),
  ("ds", "http://scap.nist.gov/schema/scap/source/1.2"),
  ("cpe-lang", "http://cpe.mitre.org/language/2.0"),
  ("cdf", "http://checklists.nist.gov/xccdf/1.2"),
  ("xsi", "http://www.w3.org/2001/XMLSchema-instance"),
  ("dc", "http://purl.org/dc/elements/1.1/")]

def INVALID_IPV4 : List String := ["127.0.0.1", "192.168.122.1"]

def INVALID_MAC : List String := ["00:00:00:00:00:00"]

def INVALID_HOSTNAME : List String := ["localhost"]

def INVALID_IPV6 : List String := ["::1"]

/-- Python truthiness of an `x.text not in SENTINELS` filter condition:
`None` is never in a set of strings, so a `None` text passes the
filter. -/
def textNotIn (t : Option String) (sentinels : List String) : Bool :=
  match t with
  | some s => !sentinels.contains s
  | none => true

/-- The texts selected by one of the target-fact set comprehensions:
`{x.text for x in root.findall(query, NS) if x.text not in INVALID}`.
The comprehension's members are modelled as a list; only membership is
relevant. -/
def factTexts (root : XNode) (query : String) (sentinels : List String) :
    List (Option String) :=
  match etFindAllNodes root query NS with
  | some l => (l.map XNode.text).filter (fun t => textNotIn t sentinels)
  | none => []

/-- `OpenSCAPSTIGViewerResult.ipv4`. -/
def oscapIpv4 (root : XNode) : List (Option String) :=
  factTexts root ".//xccdf:target-facts/xccdf:fact[@name=\"urn:xccdf:fact:asset:identifier:ipv4\"]" INVALID_IPV4

/-- `OpenSCAPSTIGViewerResult.ipv6` — note the missing colon in
`xccdffact`, taken verbatim from the source. -/
def oscapIpv6 (root : XNode) : List (Option String) :=
  factTexts root ".//xccdf:target-facts/xccdffact[@name=\"urn:xccdf:fact:asset:identifier:ipv6\"]" INVALID_IPV6

/-- `OpenSCAPSTIGViewerResult.mac`. -/
def oscapMac (root : XNode) : List (Option String) :=
  factTexts root ".//xccdf:target-facts/xccdf:fact[@name=\"urn:xccdf:fact:asset:identifier:mac\"]" INVALID_MAC

/-- `OpenSCAPSTIGViewerResult.hostname`. -/
def oscapHostname (root : XNode) : List (Option String) :=
  factTexts root ".//xccdf:target-facts/xccdf:fact[@name=\"urn:xccdf:fact:asset:identifier:host_name\"]" INVALID_HOSTNAME

/-- Digits as matched by the regex class `[0-9]`. -/
def isAsciiDigit (c : Char) : Bool := '0' ≤ c && c ≤ '9'

/-- `re.search(r"V-[0-9]+", s)`: scan positions left to right; at the
first position where `V`, `-` and at least one digit follow, return `V-`
plus the maximal digit run (leftmost-longest for this pattern); return
`none` when no position matches (`.group(0)` then raises
`AttributeError`). -/
def vidSearch : List Char → Option (List Char)
  | [] => none
  | c :: rest =>
    if c = 'V' then
      match rest with
      | c2 :: ds =>
        if c2 = '-' then
          match ds.takeWhile isAsciiDigit with
          | [] => vidSearch rest
          | run => some ('V' :: '-' :: run)
        else vidSearch rest
      | [] => vidSearch rest
    else vidSearch rest

/-- The Python exceptions surfaced by the openscap layer. -/
inductive OscapError where
  | attributeError
  | typeError
  | syntaxError
  deriving DecidableEq

/-- `OpenSCAPRuleResult.vid` as a function of the rule id:
`re.search(r"V-[0-9]+", self.rule_id).group(0)`. -/
def ruleVid (ruleId : String) : Option String :=
  (vidSearch ruleId.data).map fun l => ⟨l⟩

/-- The vulnerability id derived from one rule-result node: `idref`
attribute (a missing attribute makes `re.search` raise `TypeError`),
then pattern extraction (no match raises `AttributeError`). -/
def nodeVid (n : XNode) : Except OscapError String :=
  match n.attr "idref" with
  | none => .error .typeError
  | some rid =>
    match ruleVid rid with
    | some v => .ok v
    | none => .error .attributeError

/-- `dict.update({k: v})`: replace the value in place when the key is
present, append otherwise. -/
def dictUpdate (l : List (String × XNode)) (k : String) (v : XNode) :
    List (String × XNode) :=
  if l.any (fun p => p.1 == k) then
    l.map fun p => if p.1 == k then (k, v) else p
  else l ++ [(k, v)]

def dictFind (l : List (String × XNode)) (k : String) : Option XNode :=
  (l.find? (fun p => p.1 == k)).map (·.2)

/-- The rule-result nodes, `root.findall(".//xccdf:rule-result", NS)`. -/
def ruleResultNodes (root : XNode) : List XNode :=
  match etFindAllNodes root ".//xccdf:rule-result" NS with
  | some l => l
  | none => []

/-- `OpenSCAPSTIGViewerResult._load_rule_results`: index the rule-result
nodes by derived vid via `dict.update`, later nodes silently overwriting
earlier ones with the same vid. -/
def loadRuleResults (root : XNode) : Except OscapError (List (String × XNode)) :=
  (ruleResultNodes root).foldlM
    (fun acc n => (nodeVid n).map fun v => dictUpdate acc v n) []

/-- Python truthiness of an `ET.Element`: the number of children
(`__len__`) — a present but childless element is falsy. -/
def etTruthy (n : XNode) : Bool :=
  n.children.length != 0

/-- The nested check metadata dictionary built by
`OpenSCAPRuleResult.as_dict`. -/
structure CheckData where
  system : Option String
  checkContentRef : Option (Option String × Option String)
  checkExport : List (Option String × Option String)
  deriving DecidableEq

/-- The value stored under the `"check"` key of `as_dict()`'s result:
either Python `None`, or — because of the trailing comma in the source —
a 1-tuple wrapping the metadata dictionary. -/
inductive CheckField where
  | pyNone
  | pyTuple (d : CheckData)
  deriving DecidableEq

/-- The computation of the `"check"` entry of
`OpenSCAPRuleResult.as_dict`: find the `xccdf:check` child with `NS`;
when it is truthy (present with children), evaluate
`self.node.findall("xccdf:check-export")` — with no namespace map, so the
`xccdf:` prefix raises `SyntaxError` — then (unreachably) build the
metadata and wrap it in the 1-tuple; when the check node is absent or
childless, the entry is `None`.  The surrounding entries of the result
dictionary (ident, time, ...) are not modelled. -/
def asDictCheck (node : XNode) : Except OscapError CheckField :=
  match etFindNode node "xccdf:check" NS with
  | none => .error .syntaxError
  | some none => .ok .pyNone
  | some (some check) =>
    if etTruthy check then
      match etFindAllNodes node "xccdf:check-export" [] with
      | none => .error .syntaxError
      | some ces =>
        (match etFindNode node "xccdf:check-content-ref" NS with
         | none => .error .syntaxError
         | some ccr =>
           .ok (.pyTuple
             { system := check.attr "system"
               checkContentRef :=
                 match ccr with
                 | some r => if etTruthy r then some (r.attr "name", r.attr "href") else none
                 | none => none
               checkExport := ces.map fun x => (x.attr "export_name", x.attr "href") }))
    else .ok .pyNone

/-!
Claim-side characterizations and auxiliary predicates.
-/

/-- Claim-side characterization (from the spec's words, for C5): a string
matching the pattern `V-` followed by one or more digits. -/
def isVidToken : List Char → Bool
  | c1 :: c2 :: ds => c1 == 'V' && c2 == '-' && !ds.isEmpty && ds.all isAsciiDigit
  | _ => false

/-- Claim-side characterization (for C5): `r` occurs as a substring of
`s` starting at index `i`. -/
def occursAt (s : List Char) (i : Nat) (r : List Char) : Prop :=
  ∃ a b, s = a ++ r ++ b ∧ a.length = i

/- Every element tag of the tree is namespace-qualified (starts with an
opening brace), as produced by parsing a namespaced document (for C4). -/
mutual

def qualNode : XNode → Bool
  | .mk t _ _ _ cs => t.data.head? == some lbrace && qualNodes cs

def qualNodes : XNodes → Bool
  | .nil => true
  | .cons c cs => qualNode c && qualNodes cs

end

/-- Locality side conditions for the status round trip (C6), satisfied by
well-formed checklist documents: no other loaded record node's subtree
contains the mutated `STATUS` node.  `sp` is the root-relative path of
the status node of the vulnerability at `vp`. -/
def statusMutationLocal (root : XNode) (vp sp : List Nat) : Bool :=
  ((vulnPathsCkl root).all fun q => q == vp || !(List.isPrefixOf q sp)) &&
  (match assetPathCkl root with
   | some a => !(List.isPrefixOf a sp)
   | none => true) &&
  ((stigPathsCkl root).all fun s =>
    match infoPathCkl root s with
    | some ip => !(List.isPrefixOf ip sp)
    | none => true)

/-- Helper to write concrete elements. -/
def el (t : String) (tx : Option String) (cs : List XNode) : XNode :=
  .mk t [] tx none (cs.foldr (fun c acc => XNodes.cons c acc) XNodes.nil)

/-- Helper to write concrete elements with attributes. -/
def elA (t : String) (attrs : List (String × String)) (cs : List XNode) : XNode :=
  .mk t attrs none none (cs.foldr (fun c acc => XNodes.cons c acc) XNodes.nil)

/-- The expanded xccdf tag `{http://checklists.nist.gov/xccdf/1.2}tag`. -/
def xq (t : String) : String :=
  ⟨lbrace :: "http://checklists.nist.gov/xccdf/1.2".data ++ rbrace :: t.data⟩

/-- Helper to write concrete elements with attributes and text. -/
def elT (t : String) (attrs : List (String × String)) (tx : Option String)
    (cs : List XNode) : XNode :=
  .mk t attrs tx none (cs.foldr (fun c acc => XNodes.cons c acc) XNodes.nil)

/-- A `VULN` node one of whose `STIG_DATA` groups has a name element but
no `ATTRIBUTE_DATA` value element. -/
def vulnMissingData : XNode :=
  el "VULN" none [
    el "STIG_DATA" none [
      el "VULN_ATTRIBUTE" (some "Severity") [],
      el "ATTRIBUTE_DATA" (some "medium") []],
    el "STIG_DATA" none [
      el "VULN_ATTRIBUTE" (some "Rule_ID") []],
    el "STATUS" (some "Not_Reviewed") []]

/-- A `STIG_INFO` node one of whose `SI_DATA` groups has no `SID_DATA`
value element. -/
def infoMissingData : XNode :=
  el "STIG_INFO" none [
    el "SI_DATA" none [
      el "SID_NAME" (some "version") [],
      el "SID_DATA" (some "001.001") []],
    el "SI_DATA" none [
      el "SID_NAME" (some "customname") []]]

/-- A rule-result node whose `check` child has a child element (the
typical shape: `check` containing `check-content-ref`). -/
def ruleWithCheck : XNode :=
  elA (xq "rule-result") [("idref", "xccdf_mil.disa.stig_rule_SV-230222r627750_rule")] [
    elA (xq "check") [("system", "http://oval.mitre.org/XMLSchema/oval-definitions-5")] [
      elA (xq "check-content-ref")
        [("name", "oval:mil.disa.stig.rhel9:def:1"), ("href", "ssg-rhel9-oval.xml")] []]]

/-- A rule-result node whose `check` child is present but childless. -/
def ruleChildlessCheck : XNode :=
  elA (xq "rule-result") [("idref", "xccdf_mil.disa.stig_rule_SV-230222r627750_rule")] [
    elA (xq "check") [("system", "http://oval.mitre.org/XMLSchema/oval-definitions-5")] []]

/-- A namespaced scan-results document carrying two ipv6 target facts. -/
def ipv6Doc : XNode :=
  elA (xq "TestResult") [] [
    elA (xq "target-facts") [] [
      elT (xq "fact") [("name", "urn:xccdf:fact:asset:identifier:ipv6")]
        (some "fe80::5054:ff:fe8a:1") [],
      elT (xq "fact") [("name", "urn:xccdf:fact:asset:identifier:ipv6")]
        (some "::1") []]]

/-- A scan-results document with three rule-result nodes, two of which
derive the same vulnerability id. -/
def dupVidDoc : XNode :=
  elA (xq "TestResult") [] [
    elT (xq "rule-result")
      [("idref", "xccdf_mil.disa.stig_rule_SV-230222r627750_rule"), ("result", "pass")] none [],
    elT (xq "rule-result")
      [("idref", "xccdf_mil.disa.stig_rule_SV-230224r627756_rule"), ("result", "pass")] none [],
    elT (xq "rule-result")
      [("idref", "xccdf_mil.disa.stig_rule_SV-230222r999999_rule"), ("result", "fail")] none []]

/-- A minimal checklist document with one asset, one stig and one
vulnerability. -/
def cklDoc : XNode :=
  el "CHECKLIST" none [
    el "ASSET" none [
      el "ROLE" (some "None") [],
      el "HOST_NAME" (some "testhost") []],
    el "STIGS" none [
      el "iSTIG" none [
        el "STIG_INFO" none [
          el "SI_DATA" none [
            el "SID_NAME" (some "stigid") [],
            el "SID_DATA" (some "xccdf_mil.disa.stig_benchmark_RHEL_9_STIG") []]],
        el "VULN" none [
          el "STIG_DATA" none [
            el "VULN_ATTRIBUTE" (some "Vuln_Num") [],
            el "ATTRIBUTE_DATA" (some "V-230222") []],
          el "STATUS" (some "Not_Reviewed") [],
          el "FINDING_DETAILS" none [],
          el "COMMENTS" none [],
          el "SEVERITY_OVERRIDE" none [],
          el "SEVERITY_JUSTIFICATION" none []],
        el "VULN" none [
          el "STIG_DATA" none [
            el "VULN_ATTRIBUTE" (some "Vuln_Num") [],
            el "ATTRIBUTE_DATA" (some "V-230224") []],
          el "STATUS" (some "Open") [],
          el "FINDING_DETAILS" none [],
          el "COMMENTS" none [],
          el "SEVERITY_OVERRIDE" none [],
          el "SEVERITY_JUSTIFICATION" none []]]]]

/-- A file system holding the minimal checklist under `src.ckl` and an
unrelated file under `busy.ckl`. -/
def fsEx : FS := fun q =>
  if q = "src.ckl" then some cklDoc
  else if q = "busy.ckl" then some (el "CHECKLIST" none []) else none

/-- Steps whose evaluation does not read any text field (used to show
that a pure text mutation cannot change tag-only queries). -/
def Step.textFree : Step → Bool
  | .childText _ _ => false
  | _ => true

deriving instance DecidableEq for Except

/-!
Theorems.
-/

theorem exceptMapList_ok_mem {A E B : Type} {l : List A} {f : A → Except E B}
    {out : List B} (h : exceptMapList l f = .ok out) {a : A} (ha : a ∈ l)
    {b : B} (hb : f a = .ok b) : b ∈ out := by
  induction l generalizing out with
  | nil => cases ha
  | cons c l2 ih =>
    rw [exceptMapList] at h
    cases hfc : f c with
    | error e => rw [hfc] at h; cases h
    | ok bc =>
      rw [hfc] at h
      cases hrec : exceptMapList l2 f with
      | error e => rw [hrec] at h; cases h
      | ok out2 =>
        rw [hrec] at h
        cases h
        rcases List.mem_cons.mp ha with h1 | h2
        · subst h1; rw [hfc] at hb; cases hb; exact List.mem_cons_self _ _
        · exact List.mem_cons_of_mem _ (ih hrec h2)

theorem exceptMapList_error_of_mem {A E B : Type} {l : List A} {f : A → Except E B}
    {e : E} {x : A} (hx : x ∈ l) (hfx : f x = .error e)
    (hall : ∀ a ∈ l, f a = .error e ∨ ∃ b, f a = .ok b) :
    exceptMapList l f = .error e := by
  induction l with
  | nil => cases hx
  | cons c l2 ih =>
    rw [exceptMapList]
    rcases hall c (List.mem_cons_self _ _) with hc | ⟨b, hb⟩
    · rw [hc]
    · rw [hb]
      have hx2 : x ∈ l2 := by
        rcases List.mem_cons.mp hx with h1 | h2
        · subst h1; rw [hfx] at hb; cases hb
        · exact h2
      rw [ih hx2 fun a ha => hall a (List.mem_cons_of_mem _ ha)]
      rfl

theorem flatMap_eq_nil_of_forall {A B : Type} {l : List A} {f : A → List B}
    (h : ∀ a ∈ l, f a = []) : l.flatMap f = [] := by
  induction l with
  | nil => rfl
  | cons c l2 ih =>
    rw [List.flatMap_cons, h c (List.mem_cons_self _ _),
      ih fun a ha => h a (List.mem_cons_of_mem _ ha)]
    rfl

theorem factTexts_no_sentinel (root : XNode) (q : String) (sent : List String)
    (v : String) (hv : sent.contains v = true) :
    some v ∉ factTexts root q sent := by
  unfold factTexts
  cases etFindAllNodes root q NS with
  | none => simp
  | some l =>
    intro hmem
    have := (List.mem_filter.mp hmem).2
    rw [textNotIn, hv] at this
    cases this

/-- C3: on every loaded scan-results document the per-family address
accessors never contain their sentinel values: `localhost` never appears
in the hostname result, `127.0.0.1` and `192.168.122.1` never in the ipv4
result, `::1` never in the ipv6 result, and `00:00:00:00:00:00` never in
the mac result. -/
theorem address_accessors_exclude_sentinels (root : XNode) :
    some "localhost" ∉ oscapHostname root ∧
    some "127.0.0.1" ∉ oscapIpv4 root ∧
    some "192.168.122.1" ∉ oscapIpv4 root ∧
    some "::1" ∉ oscapIpv6 root ∧
    some "00:00:00:00:00:00" ∉ oscapMac root :=
  ⟨factTexts_no_sentinel root _ _ _ (by decide),
   factTexts_no_sentinel root _ _ _ (by decide),
   factTexts_no_sentinel root _ _ _ (by decide),
   factTexts_no_sentinel root _ _ _ (by decide),
   factTexts_no_sentinel root _ _ _ (by decide)⟩

/-- C8: `set` on either immutable keyed view (benchmark info,
vulnerability static attributes) fails with `PermissionError` for every
key and value — before any lookup, hence whether or not the key resolves
— and returns the backing tree unchanged. -/
theorem immutable_set_permission_denied (n : XNode) (key value : String) :
    (StigInfoNode.ofNode n).set key value = (.error .permissionError, n) ∧
    (VulnNode.ofNode n).set key value = (.error .permissionError, n) :=
  ⟨rfl, rfl⟩

/-- C7: `Checklist.save` without `force` on an existing path fails with
`FileExistsError` and leaves the file system unchanged; with `force` it
succeeds and the target's content becomes exactly the serialized
in-memory tree. -/
theorem save_existing_semantics (tree old : XNode) (fs : FS) (path : String)
    (hex : fs path = some old) :
    Checklist.save tree fs path false = (.error .fileExistsError, fs) ∧
    (Checklist.save tree fs path true).1 = .ok () ∧
    (Checklist.save tree fs path true).2 path = some tree := by
  unfold Checklist.save
  rw [hex]
  exact ⟨rfl, rfl, by simp⟩

/-- Witness for C7 at a concrete file system with an occupied target. -/
theorem save_existing_semantics_witness :
    Checklist.save cklDoc fsEx "busy.ckl" false = (.error .fileExistsError, fsEx) ∧
    (Checklist.save cklDoc fsEx "busy.ckl" true).1 = .ok () ∧
    (Checklist.save cklDoc fsEx "busy.ckl" true).2 "busy.ckl" = some cklDoc :=
  save_existing_semantics cklDoc (el "CHECKLIST" none []) fsEx "busy.ckl" rfl

/-- C9: on every keyed view, `get` of a key whose lookup path resolves to
no node fails with `KeyError`, and on a mutable view `set` of such a key
fails with `KeyError` and leaves the backing tree unchanged. -/
theorem unknown_key_raises_keyerror (d : DictNode) (key value : String)
    (hfind : etFindPath d.node (d.pfx ++ key ++ d.sfx) [] = some none) :
    d.get key = .error (.keyError key) ∧
    (d.immutable = false →
      d.set key value = (.error (.keyError key), d.node)) := by
  constructor
  · unfold DictNode.get; rw [hfind]
  · intro him; unfold DictNode.set; rw [him, hfind]; rfl

/-- Witness for C9: a concrete asset view and an absent key. -/
theorem unknown_key_raises_keyerror_witness :
    (AssetNode.ofNode (el "ASSET" none [el "ROLE" (some "None") [],
      el "HOST_NAME" (some "testhost") []])).get "MARKING" =
      .error (.keyError "MARKING") ∧
    ((AssetNode.ofNode (el "ASSET" none [el "ROLE" (some "None") [],
      el "HOST_NAME" (some "testhost") []])).immutable = false →
      (AssetNode.ofNode (el "ASSET" none [el "ROLE" (some "None") [],
        el "HOST_NAME" (some "testhost") []])).set "MARKING" "CUI" =
        (.error (.keyError "MARKING"),
         el "ASSET" none [el "ROLE" (some "None") [],
           el "HOST_NAME" (some "testhost") []])) :=
  unknown_key_raises_keyerror _ "MARKING" "CUI" (by decide)

/-- C2: `OpenSCAPRuleResult.as_dict` does not return the nested check
metadata mapping for a present check node: when the check child has
children the inner `findall("xccdf:check-export")` — called without the
namespace map — raises `SyntaxError`, and when the check child is present
but childless the entry is `None` (element truthiness), the latter shown
with the check child demonstrably present. -/
theorem rule_result_check_entry_bug :
    asDictCheck ruleWithCheck = .error .syntaxError ∧
    asDictCheck ruleChildlessCheck = .ok .pyNone ∧
    etFindNode ruleChildlessCheck "xccdf:check" NS =
      some (some (elA (xq "check")
        [("system", "http://oval.mitre.org/XMLSchema/oval-definitions-5")] [])) :=
  ⟨by decide, by decide, by decide⟩

/-- C1 (counterexample): on a concrete `VULN` node one of whose
`STIG_DATA` groups has no `ATTRIBUTE_DATA` value element, `items()`
raises `AttributeError` instead of yielding an empty-string value. -/
theorem vuln_items_value_absent_raises :
    vulnItems vulnMissingData = .error .attributeError ∧
    (el "STIG_DATA" none [el "VULN_ATTRIBUTE" (some "Rule_ID") []]) ∈
      iterTag vulnMissingData "STIG_DATA" ∧
    etFindNode (el "STIG_DATA" none [el "VULN_ATTRIBUTE" (some "Rule_ID") []])
      ".//ATTRIBUTE_DATA" [] = some none :=
  ⟨by decide, by decide, by decide⟩

theorem etFindNode_of_parse {p : String} {S : List Step}
    (h : parsePath [] p = some S) (x : XNode) :
    etFindNode x p [] = some (((evalSteps x S).head?).bind (nodeAt x)) := by
  unfold etFindNode etFindPath etFindAllPaths
  rw [h]
  rfl

/-- C1 (amended): only the benchmark-info view synthesizes empty-string
values — `StigInfoNode.items()` yields `(name, "")` for every group whose
value element is absent, while `VulnNode.items()` raises
`AttributeError` as soon as some group's value element is absent. -/
theorem keyed_items_missing_value (n : XNode) :
    (∀ (sid kn : XNode) (l : List (Option String × Option String)),
      sid ∈ n.children.toList →
      etFindNode sid ".//SID_NAME" [] = some (some kn) →
      etFindNode sid ".//SID_DATA" [] = some none →
      stigInfoItems n = .ok l → (kn.text, some "") ∈ l) ∧
    (∀ x : XNode, x ∈ iterTag n "STIG_DATA" →
      etFindNode x ".//ATTRIBUTE_DATA" [] = some none →
      vulnItems n = .error .attributeError) := by
  constructor
  · intro sid kn l hmem hk hv hok
    refine exceptMapList_ok_mem hok hmem ?_
    simp only [hk, hv]
  · intro x hmem hv
    have hva := etFindNode_of_parse (p := ".//VULN_ATTRIBUTE")
      (S := [.self, .descendant "VULN_ATTRIBUTE"]) (by decide)
    have had := etFindNode_of_parse (p := ".//ATTRIBUTE_DATA")
      (S := [.self, .descendant "ATTRIBUTE_DATA"]) (by decide)
    rw [vulnItems]
    refine exceptMapList_error_of_mem hmem ?_ ?_
    · rw [hva x, hv]
      cases (evalSteps x [.self, .descendant "VULN_ATTRIBUTE"]).head?.bind (nodeAt x) with
      | none => rfl
      | some kn => rfl
    · intro a _
      rw [hva a, had a]
      cases (evalSteps a [.self, .descendant "VULN_ATTRIBUTE"]).head?.bind (nodeAt a) with
      | none => exact Or.inl rfl
      | some kn =>
        cases (evalSteps a [.self, .descendant "ATTRIBUTE_DATA"]).head?.bind (nodeAt a) with
        | none => exact Or.inl rfl
        | some vn => exact Or.inr ⟨_, rfl⟩

/-- Witness for C1 (amended) at concrete info and vulnerability nodes
with missing value elements. -/
theorem keyed_items_missing_value_witness :
    (some "customname", some "") ∈
      [((some "version" : Option String), (some "001.001" : Option String)),
       (some "customname", some "")] ∧
    vulnItems vulnMissingData = .error .attributeError := by
  constructor
  · refine (keyed_items_missing_value infoMissingData).1
      (el "SI_DATA" none [el "SID_NAME" (some "customname") []])
      (el "SID_NAME" (some "customname") []) _ (by decide) (by decide) (by decide)
      (by decide)
  · exact (keyed_items_missing_value vulnMissingData).2
      (el "STIG_DATA" none [el "VULN_ATTRIBUTE" (some "Rule_ID") []])
      (by decide) (by decide)


theorem nodeAtL_eq_toList : ∀ (cs : XNodes) (i : Nat) (p : List Nat),
    nodeAtL cs i p =
      match cs.toList[i]? with
      | some c => nodeAt c p
      | none => none
  | .nil, i, p => by cases i <;> rfl
  | .cons c cs, 0, p => by simp [nodeAtL, XNodes.toList]
  | .cons c cs, i + 1, p => by
    rw [nodeAtL, nodeAtL_eq_toList cs i p]
    simp [XNodes.toList]

theorem idxsFrom_eq_nil {p : XNode → Bool} {l : List XNode}
    (h : ∀ c ∈ l, p c = false) : ∀ i, idxsFrom p i l = [] := by
  induction l with
  | nil => intro i; rfl
  | cons c cs ih =>
    intro i
    rw [idxsFrom, h c (List.mem_cons_self _ _)]
    exact ih (fun d hd => h d (List.mem_cons_of_mem _ hd)) (i + 1)

theorem qualNodes_toList_mem : ∀ (cs : XNodes), qualNodes cs = true →
    ∀ c ∈ cs.toList, qualNode c = true
  | .nil, _, c, hc => absurd hc (by simp [XNodes.toList])
  | .cons d ds, h, c, hc => by
    rw [qualNodes, Bool.and_eq_true] at h
    rcases List.mem_cons.mp hc with h1 | h2
    · subst h1; exact h.1
    · exact qualNodes_toList_mem ds h.2 c h2

theorem qualNode_children {n : XNode} (h : qualNode n = true) :
    qualNodes n.children = true := by
  cases n with
  | mk t a tx tl cs =>
    rw [qualNode, Bool.and_eq_true] at h
    exact h.2

theorem qualNode_nodeAt {p : List Nat} {n m : XNode} (h : qualNode n = true)
    (hm : nodeAt n p = some m) : qualNode m = true := by
  induction p generalizing n with
  | nil => rw [nodeAt] at hm; cases hm; exact h
  | cons i p ih =>
    cases n with
    | mk t a tx tl cs =>
      rw [nodeAt, nodeAtL_eq_toList] at hm
      cases hget : cs.toList[i]? with
      | none => rw [hget] at hm; cases hm
      | some c =>
        rw [hget] at hm
        have hc : qualNode c = true :=
          qualNodes_toList_mem cs (qualNode_children h) c (List.getElem?_mem hget)
        exact ih hc hm

theorem qualNode_tag_head {n : XNode} (h : qualNode n = true) :
    n.tag.data.head? = some lbrace := by
  cases n with
  | mk t a tx tl cs =>
    rw [qualNode, Bool.and_eq_true] at h
    exact eq_of_beq h.1

/-- C4: on every loaded (namespaced, hence brace-qualified) scan-results
document the ipv6 accessor returns the empty set no matter how many ipv6
target-fact elements the document holds: its query names the literal tag
`xccdffact` (missing colon), which matches no namespace-qualified
element. -/
theorem ipv6_accessor_always_empty (root : XNode) (h : qualNode root = true) :
    oscapIpv6 root = [] := by
  have hp : parsePath NS
      ".//xccdf:target-facts/xccdffact[@name=\"urn:xccdf:fact:asset:identifier:ipv6\"]" =
      some [.self, .descendant (xq "target-facts"),
        .childAttr "xccdffact" "name" "urn:xccdf:fact:asset:identifier:ipv6"] := by
    decide
  have hlast : ∀ ctxs : List (List Nat),
      evalStep root (.childAttr "xccdffact" "name" "urn:xccdf:fact:asset:identifier:ipv6")
        ctxs = [] := by
    intro ctxs
    rw [evalStep]
    refine flatMap_eq_nil_of_forall ?_
    intro c _
    cases hc : nodeAt root c with
    | none => rfl
    | some n =>
      have hq : qualNode n = true := qualNode_nodeAt h hc
      have hnil : childIdxsTagAttr n "xccdffact" "name"
          "urn:xccdf:fact:asset:identifier:ipv6" = [] := by
        rw [childIdxsTagAttr]
        refine idxsFrom_eq_nil ?_ 0
        intro ch hch
        have hqc : qualNode ch = true :=
          qualNodes_toList_mem n.children (qualNode_children hq) ch hch
        have hhead := qualNode_tag_head hqc
        have hne : (ch.tag == "xccdffact") = false := by
          refine beq_eq_false_iff_ne.mpr ?_
          intro he
          rw [he] at hhead
          exact absurd hhead (by decide)
        rw [hne]
        rfl
      simp [hnil]
  have hsteps : evalSteps root [.self, .descendant (xq "target-facts"),
      .childAttr "xccdffact" "name" "urn:xccdf:fact:asset:identifier:ipv6"] = [] := by
    rw [evalSteps]
    simp only [List.foldl_cons, List.foldl_nil]
    exact hlast _
  rw [oscapIpv6, factTexts]
  rw [show etFindAllNodes root
      ".//xccdf:target-facts/xccdffact[@name=\"urn:xccdf:fact:asset:identifier:ipv6\"]" NS =
      some [] by
    rw [etFindAllNodes, etFindAllPaths, hp]
    simp [hsteps]]
  rfl

/-- Witness for C4: a concrete namespaced document carrying two ipv6
target facts. -/
theorem ipv6_accessor_always_empty_witness :
    qualNode ipv6Doc = true ∧ oscapIpv6 ipv6Doc = [] :=
  ⟨by decide, ipv6_accessor_always_empty ipv6Doc (by decide)⟩

theorem dictFind_dictUpdate_self (l : List (String × XNode)) (k : String) (v : XNode) :
    dictFind (dictUpdate l k v) k = some v := by
  rw [dictUpdate]
  by_cases hany : l.any (fun p => p.1 == k) = true
  · rw [if_pos hany]
    induction l with
    | nil => cases hany
    | cons p t ih =>
      rw [List.any_cons, Bool.or_eq_true] at hany
      cases hpk : (p.1 == k) with
      | true => simp [dictFind, List.find?, hpk]
      | false =>
        rcases hany with h1 | h2
        · rw [hpk] at h1; cases h1
        · rw [List.map_cons, if_neg (by rw [hpk]; exact Bool.false_ne_true)]
          rw [dictFind, List.find?, hpk]
          exact ih h2
  · rw [if_neg hany]
    induction l with
    | nil => simp [dictFind, List.find?]
    | cons p t ih =>
      rw [List.any_cons, Bool.or_eq_true, not_or] at hany
      have hpk : (p.1 == k) = false := by
        cases h : (p.1 == k) with
        | true => exact absurd h hany.1
        | false => rfl
      rw [List.cons_append, dictFind, List.find?, hpk]
      exact ih fun h => hany.2 h

theorem dictFind_map_upd {k2 k : String} (v : XNode) (h : k2 ≠ k) :
    ∀ l : List (String × XNode),
    dictFind (l.map fun p => if p.1 == k then (k, v) else p) k2 = dictFind l k2 := by
  intro l
  induction l with
  | nil => rfl
  | cons p t ih =>
    rw [List.map_cons, dictFind, List.find?, dictFind, List.find?]
    by_cases hpk : (p.1 == k) = true
    · have hp2 : (p.1 == k2) = false := by
        rw [eq_of_beq hpk]
        exact beq_eq_false_iff_ne.mpr fun he => h he.symm
      rw [if_pos hpk]
      have hk2 : (k == k2) = false := beq_eq_false_iff_ne.mpr fun he => h he.symm
      simp only [hp2, hk2]
      exact ih
    · rw [if_neg hpk]
      cases hp2 : (p.1 == k2) with
      | true => rfl
      | false => exact ih

theorem dictFind_append_single {k2 k : String} (v : XNode) (h : k2 ≠ k) :
    ∀ l : List (String × XNode),
    dictFind (l ++ [(k, v)]) k2 = dictFind l k2 := by
  intro l
  induction l with
  | nil =>
    have hk2 : (k == k2) = false := beq_eq_false_iff_ne.mpr fun he => h he.symm
    simp [dictFind, List.find?, hk2]
  | cons p t ih =>
    rw [List.cons_append, dictFind, List.find?, dictFind, List.find?]
    cases hp2 : (p.1 == k2) with
    | true => rfl
    | false => exact ih

theorem dictFind_dictUpdate_ne (l : List (String × XNode)) {k2 k : String} (v : XNode)
    (h : k2 ≠ k) : dictFind (dictUpdate l k v) k2 = dictFind l k2 := by
  rw [dictUpdate]
  by_cases hany : l.any (fun p => p.1 == k) = true
  · rw [if_pos hany]; exact dictFind_map_upd v h l
  · rw [if_neg hany]; exact dictFind_append_single v h l

theorem getLast?_cons_eq_elim {A : Type} (n : A) (l : List A) :
    (n :: l).getLast? = l.getLast?.elim (some n) some := by
  induction l generalizing n with
  | nil => rfl
  | cons x xs ih =>
    rw [List.getLast?_cons_cons, ih x]
    cases xs.getLast? <;> rfl

theorem loadRuleResults_aux (v : String) :
    ∀ (ns : List XNode) (acc m : List (String × XNode)),
    ns.foldlM (fun acc n => (nodeVid n).map fun v2 => dictUpdate acc v2 n) acc = .ok m →
    dictFind m v =
      ((ns.filter fun n => decide (nodeVid n = .ok v)).getLast?).elim (dictFind acc v) some := by
  intro ns
  induction ns with
  | nil =>
    intro acc m h
    cases h
    rfl
  | cons n ns ih =>
    intro acc m h
    rw [List.foldlM_cons] at h
    cases hvid : nodeVid n with
    | error e =>
      rw [hvid] at h
      exact Except.noConfusion h
    | ok v2 =>
      rw [hvid] at h
      have h2 : ns.foldlM (fun acc n => (nodeVid n).map fun v2 => dictUpdate acc v2 n)
          (dictUpdate acc v2 n) = .ok m := h
      have hrec := ih (dictUpdate acc v2 n) m h2
      by_cases hveq : v2 = v
      · subst hveq
        have hpn : decide (nodeVid n = Except.ok v2) = true := by
          rw [hvid]
          exact decide_eq_true rfl
        rw [dictFind_dictUpdate_self] at hrec
        rw [List.filter_cons, hpn, if_pos rfl, getLast?_cons_eq_elim, hrec]
        cases (ns.filter fun n => decide (nodeVid n = Except.ok v2)).getLast? <;> rfl
      · have hpn : decide (nodeVid n = Except.ok v) = false := by
          rw [hvid]
          exact decide_eq_false fun he => hveq (Except.ok.inj he)
        rw [dictFind_dictUpdate_ne acc n (Ne.symm hveq)] at hrec
        rw [List.filter_cons, hpn, if_neg (by exact Bool.false_ne_true), hrec]

/-- C10: when several rule-result nodes derive the same vulnerability id,
the loaded `rule_results` mapping associates that id with the last such
node in document order — later results silently overwrite earlier ones
and no error is raised. -/
theorem duplicate_vid_last_wins (root : XNode) (m : List (String × XNode)) (v : String)
    (hload : loadRuleResults root = .ok m) :
    dictFind m v =
      ((ruleResultNodes root).filter fun n => decide (nodeVid n = .ok v)).getLast? := by
  have := loadRuleResults_aux v (ruleResultNodes root) [] m hload
  rw [this]
  cases ((ruleResultNodes root).filter fun n => decide (nodeVid n = .ok v)).getLast? <;> rfl

/-- Witness for C10: a document with three rule-result nodes, the first
and third deriving `V-230222`; the mapping holds the third node. -/
theorem duplicate_vid_last_wins_witness :
    loadRuleResults dupVidDoc = .ok
      [("V-230222", elT (xq "rule-result")
          [("idref", "xccdf_mil.disa.stig_rule_SV-230222r999999_rule"), ("result", "fail")] none []),
       ("V-230224", elT (xq "rule-result")
          [("idref", "xccdf_mil.disa.stig_rule_SV-230224r627756_rule"), ("result", "pass")] none [])] ∧
    dictFind
      [("V-230222", elT (xq "rule-result")
          [("idref", "xccdf_mil.disa.stig_rule_SV-230222r999999_rule"), ("result", "fail")] none []),
       ("V-230224", elT (xq "rule-result")
          [("idref", "xccdf_mil.disa.stig_rule_SV-230224r627756_rule"), ("result", "pass")] none [])]
      "V-230222" =
      some (elT (xq "rule-result")
        [("idref", "xccdf_mil.disa.stig_rule_SV-230222r999999_rule"), ("result", "fail")] none []) := by
  refine ⟨by decide, ?_⟩
  rw [duplicate_vid_last_wins dupVidDoc _ "V-230222" (by decide)]
  decide

theorem isVidToken_shape {r : List Char} (h : isVidToken r = true) :
    ∃ ds, r = 'V' :: '-' :: ds ∧ ds ≠ [] ∧ ds.all isAsciiDigit = true := by
  cases r with
  | nil => cases h
  | cons c1 r1 =>
    cases r1 with
    | nil => cases h
    | cons c2 ds =>
      rw [isVidToken] at h
      simp only [Bool.and_eq_true] at h
      obtain ⟨⟨⟨h1, h2⟩, h3⟩, h4⟩ := h
      refine ⟨ds, ?_, ?_, h4⟩
      · rw [eq_of_beq h1, eq_of_beq h2]
      · intro he; subst he; simp at h3

theorem isVidToken_build (ds : List Char) (hne : ds ≠ []) (hall : ds.all isAsciiDigit = true) :
    isVidToken ('V' :: '-' :: ds) = true := by
  have hie : ds.isEmpty = false := by
    cases ds with
    | nil => exact absurd rfl hne
    | cons d t => rfl
  rw [isVidToken]
  simp [hie, hall]

theorem occursAt_zero {s r : List Char} : occursAt s 0 r ↔ ∃ b, s = r ++ b := by
  constructor
  · rintro ⟨a, b, hs, ha⟩
    have : a = [] := List.length_eq_zero.mp ha
    subst this
    exact ⟨b, by simpa using hs⟩
  · rintro ⟨b, hs⟩
    exact ⟨[], b, by simpa using hs, rfl⟩

theorem occursAt_cons_succ {c : Char} {s r : List Char} {i : Nat} :
    occursAt (c :: s) (i + 1) r ↔ occursAt s i r := by
  constructor
  · rintro ⟨a, b, hs, ha⟩
    cases a with
    | nil => cases ha
    | cons a0 a1 =>
      rw [List.cons_append] at hs
      injection hs with h1 h2
      exact ⟨a1, b, h2, Nat.succ.inj ha⟩
  · rintro ⟨a, b, hs, ha⟩
    exact ⟨c :: a, b, by simp [hs], by simp [ha]⟩

theorem not_occursAt_nil {i : Nat} {r : List Char} (h : isVidToken r = true) :
    ¬ occursAt [] i r := by
  rintro ⟨a, b, hs, ha⟩
  obtain ⟨ds, hr, _, _⟩ := isVidToken_shape h
  subst hr
  cases a <;> simp at hs

theorem occursAt_cons_elim {c : Char} {s r : List Char} {i : Nat}
    (h : occursAt (c :: s) i r) :
    (i = 0 ∧ occursAt (c :: s) 0 r) ∨ ∃ j, i = j + 1 ∧ occursAt s j r := by
  cases i with
  | zero => exact Or.inl ⟨rfl, h⟩
  | succ j => exact Or.inr ⟨j, rfl, occursAt_cons_succ.mp h⟩

theorem all_takeWhile (p : Char → Bool) : ∀ ds : List Char,
    ((ds.takeWhile p).all p) = true := by
  intro ds
  induction ds with
  | nil => rfl
  | cons d t ih =>
    rw [List.takeWhile_cons]
    cases hd : p d with
    | true => simp [List.all_cons, ih, hd]
    | false => simp

theorem all_prefix_length_le_takeWhile {p : Char → Bool} :
    ∀ (ds2 ds b : List Char), ds = ds2 ++ b → ds2.all p = true →
    ds2.length ≤ (ds.takeWhile p).length := by
  intro ds2
  induction ds2 with
  | nil => intro ds b _ _; exact Nat.zero_le _
  | cons d t ih =>
    intro ds b hds hall
    subst hds
    rw [List.all_cons, Bool.and_eq_true] at hall
    rw [List.cons_append, List.takeWhile_cons, if_pos hall.1]
    exact Nat.succ_le_succ (ih (t ++ b) b rfl hall.2)

theorem vidSearch_spec_step {c : Char} {t : List Char}
    (hrec : vidSearch (c :: t) = vidSearch t)
    (h0 : ∀ r2, isVidToken r2 = true → ¬ occursAt (c :: t) 0 r2)
    (iht :
      (vidSearch t = none → ∀ i r, isVidToken r = true → ¬ occursAt t i r) ∧
      (∀ r, vidSearch t = some r →
        isVidToken r = true ∧
        ∃ i, occursAt t i r ∧
          (∀ j r2, isVidToken r2 = true → occursAt t j r2 → i ≤ j) ∧
          (∀ r2, isVidToken r2 = true → occursAt t i r2 → r2.length ≤ r.length))) :
    (vidSearch (c :: t) = none → ∀ i r, isVidToken r = true → ¬ occursAt (c :: t) i r) ∧
    (∀ r, vidSearch (c :: t) = some r →
      isVidToken r = true ∧
      ∃ i, occursAt (c :: t) i r ∧
        (∀ j r2, isVidToken r2 = true → occursAt (c :: t) j r2 → i ≤ j) ∧
        (∀ r2, isVidToken r2 = true → occursAt (c :: t) i r2 → r2.length ≤ r.length)) := by
  constructor
  · intro hn i r hr hocc
    rw [hrec] at hn
    rcases occursAt_cons_elim hocc with ⟨_, h00⟩ | ⟨j, _, hoj⟩
    · exact h0 r hr h00
    · exact iht.1 hn j r hr hoj
  · intro r hr
    rw [hrec] at hr
    obtain ⟨htok, i, hocc, hmin, hmax⟩ := iht.2 r hr
    refine ⟨htok, i + 1, occursAt_cons_succ.mpr hocc, ?_, ?_⟩
    · intro j r2 hr2 hj
      rcases occursAt_cons_elim hj with ⟨hj0, h00⟩ | ⟨j2, hij, hoj⟩
      · exact absurd h00 (h0 r2 hr2)
      · subst hij
        exact Nat.succ_le_succ (hmin j2 r2 hr2 hoj)
    · intro r2 hr2 hocc2
      exact hmax r2 hr2 (occursAt_cons_succ.mp hocc2)

theorem vidSearch_spec : ∀ s : List Char,
    (vidSearch s = none → ∀ i r, isVidToken r = true → ¬ occursAt s i r) ∧
    (∀ r, vidSearch s = some r →
      isVidToken r = true ∧
      ∃ i, occursAt s i r ∧
        (∀ j r2, isVidToken r2 = true → occursAt s j r2 → i ≤ j) ∧
        (∀ r2, isVidToken r2 = true → occursAt s i r2 → r2.length ≤ r.length)) := by
  intro s
  induction s with
  | nil =>
    refine ⟨fun _ i r hr => not_occursAt_nil hr, fun r hr => ?_⟩
    rw [vidSearch] at hr
    cases hr
  | cons c t ih =>
    by_cases hc : c = 'V'
    · subst hc
      cases t with
      | nil =>
        refine vidSearch_spec_step rfl ?_ ih
        intro r2 hr2 hocc
        obtain ⟨ds2, hr2eq, _, _⟩ := isVidToken_shape hr2
        subst hr2eq
        obtain ⟨b, hs⟩ := occursAt_zero.mp hocc
        rw [List.cons_append, List.cons_append] at hs
        injection hs with _ hs1
        exact List.noConfusion hs1
      | cons c2 ds =>
        by_cases hc2 : c2 = '-'
        · subst hc2
          cases hrun : ds.takeWhile isAsciiDigit with
          | nil =>
            refine vidSearch_spec_step (by rw [vidSearch]; simp [hrun]) ?_ ih
            intro r2 hr2 hocc
            obtain ⟨ds2, hr2eq, hne2, hall2⟩ := isVidToken_shape hr2
            subst hr2eq
            obtain ⟨b, hs⟩ := occursAt_zero.mp hocc
            rw [List.cons_append, List.cons_append] at hs
            injection hs with _ hs1
            injection hs1 with _ hs2
            have hle := all_prefix_length_le_takeWhile ds2 ds b hs2 hall2
            rw [hrun] at hle
            cases ds2 with
            | nil => exact hne2 rfl
            | cons d dt => simp at hle
          | cons d run2 =>
            have hres : vidSearch ('V' :: '-' :: ds) = some ('V' :: '-' :: d :: run2) := by
              rw [vidSearch]
              simp [hrun]
            constructor
            · intro hn
              rw [hres] at hn
              cases hn
            · intro r hr
              rw [hres] at hr
              have hreq := (Option.some.inj hr).symm
              subst hreq
              have htdd : (d :: run2) ++ ds.dropWhile isAsciiDigit = ds := by
                rw [← hrun]
                exact List.takeWhile_append_dropWhile _ _
              refine ⟨?_, 0, ?_, fun j r2 _ _ => Nat.zero_le j, ?_⟩
              · refine isVidToken_build (d :: run2) (by simp) ?_
                rw [← hrun]
                exact all_takeWhile _ ds
              · refine occursAt_zero.mpr ⟨ds.dropWhile isAsciiDigit, ?_⟩
                rw [List.cons_append, List.cons_append, htdd]
              · intro r2 hr2 hocc2
                obtain ⟨ds2, hr2eq, hne2, hall2⟩ := isVidToken_shape hr2
                subst hr2eq
                obtain ⟨b, hs⟩ := occursAt_zero.mp hocc2
                rw [List.cons_append, List.cons_append] at hs
                injection hs with _ hs1
                injection hs1 with _ hs2
                have hle := all_prefix_length_le_takeWhile ds2 ds b hs2 hall2
                rw [hrun] at hle
                simp only [List.length_cons]
                exact Nat.succ_le_succ (Nat.succ_le_succ hle)
        · refine vidSearch_spec_step (by rw [vidSearch]; simp [hc2]) ?_ ih
          intro r2 hr2 hocc
          obtain ⟨ds2, hr2eq, _, _⟩ := isVidToken_shape hr2
          subst hr2eq
          obtain ⟨b, hs⟩ := occursAt_zero.mp hocc
          rw [List.cons_append, List.cons_append] at hs
          injection hs with _ hs1
          injection hs1 with hs2 _
          exact hc2 hs2
    · refine vidSearch_spec_step (by rw [vidSearch.eq_def]; simp [hc]) ?_ ih
      intro r2 hr2 hocc
      obtain ⟨ds2, hr2eq, _, _⟩ := isVidToken_shape hr2
      subst hr2eq
      obtain ⟨b, hs⟩ := occursAt_zero.mp hocc
      rw [List.cons_append] at hs
      injection hs with hs1 _
      exact hc hs1

/-- C5: for every rule identifier, the derived vulnerability id is exactly
the first substring matching `V-` followed by one or more digits — it is
such a token, it occurs at the least index at which any such token occurs,
and it is the longest such token occurring there (`[0-9]+` is greedy) —
and when the identifier contains no such substring the derivation fails
(the `re.search` result is `None`, modelled as `ruleVid = none`, on which
`.group(0)` raises the uncaught pattern-extraction error). -/
theorem vid_is_first_pattern_match (s : String) :
    (ruleVid s = none → ∀ i r, isVidToken r = true → ¬ occursAt s.data i r) ∧
    (∀ rStr : String, ruleVid s = some rStr →
      isVidToken rStr.data = true ∧
      ∃ i, occursAt s.data i rStr.data ∧
        (∀ j r2, isVidToken r2 = true → occursAt s.data j r2 → i ≤ j) ∧
        (∀ r2, isVidToken r2 = true → occursAt s.data i r2 →
          r2.length ≤ rStr.data.length)) := by
  have hl := vidSearch_spec s.data
  constructor
  · intro hn
    refine hl.1 ?_
    rw [ruleVid] at hn
    cases hv : vidSearch s.data with
    | none => rfl
    | some l => rw [hv] at hn; cases hn
  · intro rStr hr
    rw [ruleVid] at hr
    cases hv : vidSearch s.data with
    | none => rw [hv] at hr; cases hr
    | some l =>
      rw [hv] at hr
      have hreq : rStr = ⟨l⟩ := (Option.some.inj hr).symm
      subst hreq
      exact hl.2 l hv

/-- Witness for C5 at the concrete rule id from the spec's example
family. -/
theorem vid_is_first_pattern_match_witness :
    ruleVid "xccdf_mil.disa.stig_rule_SV-230222r627750_rule" = some "V-230222" ∧
    isVidToken "V-230222".data = true ∧
    (∃ i, occursAt "xccdf_mil.disa.stig_rule_SV-230222r627750_rule".data i
      "V-230222".data) := by
  have h := (vid_is_first_pattern_match "xccdf_mil.disa.stig_rule_SV-230222r627750_rule").2
    "V-230222" (by decide)
  exact ⟨by decide, h.1, h.2.elim fun i hi => ⟨i, hi.1⟩⟩

theorem map_congr_mem {A B : Type} {l : List A} {f g : A → B}
    (h : ∀ a ∈ l, f a = g a) : l.map f = l.map g := by
  induction l with
  | nil => rfl
  | cons c t ih =>
    rw [List.map_cons, List.map_cons, h c (List.mem_cons_self _ _),
      ih fun a ha => h a (List.mem_cons_of_mem _ ha)]

theorem filterMap_congr_mem {A B : Type} {l : List A} {f g : A → Option B}
    (h : ∀ a ∈ l, f a = g a) : l.filterMap f = l.filterMap g := by
  induction l with
  | nil => rfl
  | cons c t ih =>
    rw [List.filterMap_cons, List.filterMap_cons, h c (List.mem_cons_self _ _),
      ih fun a ha => h a (List.mem_cons_of_mem _ ha)]

theorem flatMap_congr_mem {A B : Type} {l : List A} {f g : A → List B}
    (h : ∀ a ∈ l, f a = g a) : l.flatMap f = l.flatMap g := by
  induction l with
  | nil => rfl
  | cons c t ih =>
    rw [List.flatMap_cons, List.flatMap_cons, h c (List.mem_cons_self _ _),
      ih fun a ha => h a (List.mem_cons_of_mem _ ha)]

theorem nodeAt_append : ∀ (p : List Nat) (t : XNode) (q : List Nat),
    nodeAt t (p ++ q) = (nodeAt t p).bind fun n => nodeAt n q := by
  intro p
  induction p with
  | nil => intro t q; cases t; rfl
  | cons i p ih =>
    intro t q
    cases t with
    | mk tg a tx tl cs =>
      rw [List.cons_append]
      simp only [nodeAt]
      rw [nodeAtL_eq_toList, nodeAtL_eq_toList]
      cases h : cs.toList[i]? with
      | none => rfl
      | some c => exact ih c q

theorem toList_setTextAtL : ∀ (cs : XNodes) (i : Nat) (p : List Nat) (s : Option String),
    (setTextAtL cs i p s).toList =
      cs.toList.modify (fun c => setTextAt c p s) i
  | .nil, i, p, s => by cases i <;> rfl
  | .cons c cs, 0, p, s => by
    simp [setTextAtL, XNodes.toList]
  | .cons c cs, i + 1, p, s => by
    simp [setTextAtL, XNodes.toList, toList_setTextAtL cs i p s]

theorem tag_setTextAt (t : XNode) (p : List Nat) (s : Option String) :
    (setTextAt t p s).tag = t.tag := by
  cases t; cases p <;> rfl

theorem attrs_setTextAt (t : XNode) (p : List Nat) (s : Option String) :
    (setTextAt t p s).attrs = t.attrs := by
  cases t; cases p <;> rfl

theorem text_setTextAt_nil (t : XNode) (s : Option String) :
    (setTextAt t [] s).text = s := by
  cases t; rfl

theorem children_setTextAt_nil (t : XNode) (s : Option String) :
    (setTextAt t [] s).children = t.children := by
  cases t; rfl

theorem nodeAt_setTextAt : ∀ (q : List Nat) (t : XNode) (p : List Nat) (s : Option String),
    nodeAt (setTextAt t p s) q =
      if q.isPrefixOf p then (nodeAt t q).map fun n => setTextAt n (p.drop q.length) s
      else nodeAt t q := by
  intro q
  induction q with
  | nil =>
    intro t p s
    simp [nodeAt]
  | cons j q2 ih =>
    intro t p s
    cases t with
    | mk tg a tx tl cs =>
      cases p with
      | nil =>
        simp only [setTextAt, List.isPrefixOf_cons_nil, Bool.false_eq_true, if_false]
        simp only [nodeAt]
      | cons i p2 =>
        simp only [setTextAt, nodeAt]
        rw [nodeAtL_eq_toList, nodeAtL_eq_toList, toList_setTextAtL,
          List.getElem?_modify]
        rw [List.isPrefixOf_cons₂]
        by_cases hij : j = i
        · subst hij
          have hli : (j == j) = true := beq_self_eq_true j
          rw [hli, Bool.true_and]
          cases hg : cs.toList[j]? with
          | none =>
            cases hpre : q2.isPrefixOf p2 <;> simp
          | some c =>
            have hmap : ((fun a => if j = j then setTextAt a p2 s else a) <$> some c)
                = some (setTextAt c p2 s) := by simp
            rw [hmap]
            show nodeAt (setTextAt c p2 s) q2 = _
            rw [ih c p2 s]
            simp only [List.length_cons, List.drop_succ_cons]
        · have hli : (j == i) = false := beq_eq_false_iff_ne.mpr hij
          rw [hli, Bool.false_and]
          simp only [Bool.false_eq_true, if_false]
          have hne2 : ¬ (i = j) := fun he => hij he.symm
          cases hg : cs.toList[j]? with
          | none => rfl
          | some c =>
            have hmap : ((fun a => if i = j then setTextAt a p2 s else a) <$> some c)
                = some c := by simp [hne2]
            rw [hmap]

theorem nodeAt_setTextAt_outside {q : List Nat} {t : XNode} {p : List Nat}
    {s : Option String} (h : q.isPrefixOf p = false) :
    nodeAt (setTextAt t p s) q = nodeAt t q := by
  rw [nodeAt_setTextAt, h]
  simp

theorem nodeAt_setTextAt_within {q : List Nat} {t : XNode} {p : List Nat}
    {s : Option String} (h : q.isPrefixOf p = true) :
    nodeAt (setTextAt t p s) q =
      (nodeAt t q).map fun n => setTextAt n (p.drop q.length) s := by
  rw [nodeAt_setTextAt, h]
  simp

theorem tagAt_setTextAt (t : XNode) (p q : List Nat) (s : Option String) :
    (nodeAt (setTextAt t p s) q).map XNode.tag = (nodeAt t q).map XNode.tag := by
  cases hpre : q.isPrefixOf p with
  | true =>
    rw [nodeAt_setTextAt_within hpre]
    cases nodeAt t q with
    | none => rfl
    | some n => simp [tag_setTextAt]
  | false => rw [nodeAt_setTextAt_outside hpre]

theorem subPathsL_setTextAtL : ∀ (cs : XNodes) (i k : Nat) (p : List Nat) (s : Option String),
    (∀ c : XNode, subPaths (setTextAt c p s) = subPaths c) →
    subPathsL k (setTextAtL cs i p s) = subPathsL k cs
  | .nil, _, _, _, _, _ => rfl
  | .cons c cs, 0, k, p, s, h => by
    rw [setTextAtL, subPathsL, subPathsL, h c]
  | .cons c cs, i + 1, k, p, s, h => by
    rw [setTextAtL, subPathsL, subPathsL, subPathsL_setTextAtL cs i (k + 1) p s h]

theorem subPaths_setTextAt : ∀ (p : List Nat) (t : XNode) (s : Option String),
    subPaths (setTextAt t p s) = subPaths t := by
  intro p
  induction p with
  | nil => intro t s; cases t; rfl
  | cons i p2 ih =>
    intro t s
    cases t with
    | mk tg a tx tl cs =>
      rw [setTextAt, subPaths, subPaths,
        subPathsL_setTextAtL cs i 0 p2 s (fun c => ih c s)]

theorem idxsFrom_modify {l : List XNode} {f : XNode → XNode} {pr : XNode → Bool}
    (hpf : ∀ c, pr (f c) = pr c) : ∀ (i k : Nat),
    idxsFrom pr k (l.modify f i) = idxsFrom pr k l := by
  induction l with
  | nil => intro i k; rw [List.modify_nil]
  | cons c t ih =>
    intro i k
    cases i with
    | zero =>
      rw [List.modify_zero_cons, idxsFrom, idxsFrom, hpf c]
    | succ i2 =>
      rw [List.modify_succ_cons, idxsFrom, idxsFrom, ih i2 (k + 1)]

theorem children_toList_setTextAt (t : XNode) (p : List Nat) (s : Option String) :
    (setTextAt t p s).children.toList =
      match p with
      | [] => t.children.toList
      | i :: p2 => t.children.toList.modify (fun c => setTextAt c p2 s) i := by
  cases t with
  | mk tg a tx tl cs =>
    cases p with
    | nil => rfl
    | cons i p2 =>
      show (setTextAtL cs i p2 s).toList = _
      rw [toList_setTextAtL]
      rfl

theorem childIdxsTag_setTextAt (t : XNode) (p : List Nat) (s : Option String)
    (tg : String) : childIdxsTag (setTextAt t p s) tg = childIdxsTag t tg := by
  rw [childIdxsTag, childIdxsTag, children_toList_setTextAt]
  cases p with
  | nil => rfl
  | cons i p2 =>
    exact idxsFrom_modify (fun c => by rw [tag_setTextAt]) i 0

theorem childIdxsTagAttr_setTextAt (t : XNode) (p : List Nat) (s : Option String)
    (tg a v : String) :
    childIdxsTagAttr (setTextAt t p s) tg a v = childIdxsTagAttr t tg a v := by
  rw [childIdxsTagAttr, childIdxsTagAttr, children_toList_setTextAt]
  cases p with
  | nil => rfl
  | cons i p2 =>
    refine idxsFrom_modify (fun c => ?_) i 0
    rw [tag_setTextAt]
    rw [show (setTextAt c p2 s).attr a = c.attr a by rw [XNode.attr, XNode.attr, attrs_setTextAt]]

theorem descIdxs_setTextAt (t : XNode) (p : List Nat) (s : Option String) (tg : String) :
    descIdxs (setTextAt t p s) tg = descIdxs t tg := by
  rw [descIdxs, descIdxs, subPaths_setTextAt]
  refine List.filter_congr fun q _ => ?_
  rw [tagAt_setTextAt]

theorem evalStep_setTextAt (t : XNode) (p : List Nat) (s : Option String) (st : Step)
    (htf : st.textFree = true) (C : List (List Nat)) :
    evalStep (setTextAt t p s) st C = evalStep t st C := by
  cases st with
  | self => rfl
  | parent => rfl
  | childText tg v => cases htf
  | descendant tg =>
    simp only [evalStep]
    refine flatMap_congr_mem fun c _ => ?_
    cases hpre : c.isPrefixOf p with
    | true =>
      rw [nodeAt_setTextAt_within hpre]
      cases nodeAt t c with
      | none => rfl
      | some n => simp only [Option.map_some']; rw [descIdxs_setTextAt]
    | false => rw [nodeAt_setTextAt_outside hpre]
  | child tg =>
    simp only [evalStep]
    refine flatMap_congr_mem fun c _ => ?_
    cases hpre : c.isPrefixOf p with
    | true =>
      rw [nodeAt_setTextAt_within hpre]
      cases nodeAt t c with
      | none => rfl
      | some n => simp only [Option.map_some']; rw [childIdxsTag_setTextAt]
    | false => rw [nodeAt_setTextAt_outside hpre]
  | childAttr tg a v =>
    simp only [evalStep]
    refine flatMap_congr_mem fun c _ => ?_
    cases hpre : c.isPrefixOf p with
    | true =>
      rw [nodeAt_setTextAt_within hpre]
      cases nodeAt t c with
      | none => rfl
      | some n => simp only [Option.map_some']; rw [childIdxsTagAttr_setTextAt]
    | false => rw [nodeAt_setTextAt_outside hpre]

theorem evalStep_congr_nodes {t t2 : XNode} {C : List (List Nat)}
    (h : ∀ c ∈ C, nodeAt t c = nodeAt t2 c) (st : Step) :
    evalStep t st C = evalStep t2 st C := by
  cases st with
  | self => rfl
  | parent => rfl
  | descendant tg =>
    simp only [evalStep]
    exact flatMap_congr_mem fun c hc => by rw [h c hc]
  | child tg =>
    simp only [evalStep]
    exact flatMap_congr_mem fun c hc => by rw [h c hc]
  | childText tg v =>
    simp only [evalStep]
    exact flatMap_congr_mem fun c hc => by rw [h c hc]
  | childAttr tg a v =>
    simp only [evalStep]
    exact flatMap_congr_mem fun c hc => by rw [h c hc]

theorem nodeAt_nil (t : XNode) : nodeAt t [] = some t := by
  cases t; rfl

theorem evalSteps_setTextAt_textFree (root : XNode) (p : List Nat) (s : Option String)
    (steps : List Step) (hall : steps.all Step.textFree = true) :
    evalSteps (setTextAt root p s) steps = evalSteps root steps := by
  rw [evalSteps, evalSteps]
  suffices h2 : ∀ (steps2 : List Step) (C : List (List Nat)),
      steps2.all Step.textFree = true →
      List.foldl (fun cs st => evalStep (setTextAt root p s) st cs) C steps2 =
      List.foldl (fun cs st => evalStep root st cs) C steps2 by
    exact h2 steps [[]] hall
  intro steps2
  induction steps2 with
  | nil => intro C _; rfl
  | cons st rest ih =>
    intro C hall2
    rw [List.all_cons, Bool.and_eq_true] at hall2
    rw [List.foldl_cons, List.foldl_cons, evalStep_setTextAt root p s st hall2.1 C]
    exact ih _ hall2.2

theorem etFindAllPaths_setTextAt (root : XNode) (p : List Nat) (s : Option String)
    {path : String} {ns : List (String × String)} {S : List Step}
    (hp : parsePath ns path = some S) (hall : S.all Step.textFree = true) :
    etFindAllPaths (setTextAt root p s) path ns = etFindAllPaths root path ns := by
  rw [etFindAllPaths, etFindAllPaths, hp]
  simp only [Option.map_some']
  rw [evalSteps_setTextAt_textFree root p s S hall]

theorem stigPathsCkl_setTextAt (root : XNode) (p : List Nat) (s : Option String) :
    stigPathsCkl (setTextAt root p s) = stigPathsCkl root := by
  rw [stigPathsCkl, stigPathsCkl,
    etFindAllPaths_setTextAt root p s
      (S := [.self, .descendant "STIGS", .child "iSTIG"]) (by decide) (by decide)]

theorem vulnPathsCkl_setTextAt (root : XNode) (p : List Nat) (s : Option String) :
    vulnPathsCkl (setTextAt root p s) = vulnPathsCkl root := by
  rw [vulnPathsCkl, vulnPathsCkl, stigPathsCkl_setTextAt]
  refine flatMap_congr_mem fun sp _ => ?_
  cases hpre : sp.isPrefixOf p with
  | true =>
    rw [nodeAt_setTextAt_within hpre]
    cases nodeAt root sp with
    | none => rfl
    | some sn =>
      simp only [Option.map_some']
      rw [childIdxsTag_setTextAt]
  | false => rw [nodeAt_setTextAt_outside hpre]

theorem assetPathCkl_setTextAt (root : XNode) (p : List Nat) (s : Option String) :
    assetPathCkl (setTextAt root p s) = assetPathCkl root := by
  rw [assetPathCkl, assetPathCkl, etFindPath, etFindPath,
    etFindAllPaths_setTextAt root p s
      (S := [.self, .descendant "ASSET"]) (by decide) (by decide)]

theorem infoPathCkl_setTextAt (root : XNode) (p : List Nat) (s : Option String)
    (sp : List Nat) : infoPathCkl (setTextAt root p s) sp = infoPathCkl root sp := by
  rw [infoPathCkl, infoPathCkl]
  cases hpre : sp.isPrefixOf p with
  | false => rw [nodeAt_setTextAt_outside hpre]
  | true =>
    rw [nodeAt_setTextAt_within hpre]
    cases nodeAt root sp with
    | none => rfl
    | some sn =>
      simp only [Option.map_some']
      rw [etFindPath, etFindPath,
        etFindAllPaths_setTextAt sn (p.drop sp.length) s
          (S := [.self, .descendant "STIG_INFO"]) (by decide) (by decide)]

theorem statusChildIdx_setTextAt (root : XNode) (p : List Nat) (s : Option String)
    (vp : List Nat) : statusChildIdx (setTextAt root p s) vp = statusChildIdx root vp := by
  rw [statusChildIdx, statusChildIdx]
  cases hpre : vp.isPrefixOf p with
  | false => rw [nodeAt_setTextAt_outside hpre]
  | true =>
    rw [nodeAt_setTextAt_within hpre]
    cases nodeAt root vp with
    | none => rfl
    | some vn =>
      simp only [Option.map_some']
      rw [childIdxsTag_setTextAt]

theorem idxsFrom_mem {pr : XNode → Bool} : ∀ (l : List XNode) (k j : Nat),
    j ∈ idxsFrom pr k l → ∃ m c, j = k + m ∧ l[m]? = some c ∧ pr c = true := by
  intro l
  induction l with
  | nil => intro k j h; cases h
  | cons c t ih =>
    intro k j h
    rw [idxsFrom] at h
    by_cases hc : pr c = true
    · rw [if_pos hc] at h
      rcases List.mem_cons.mp h with h1 | h2
      · exact ⟨0, c, by omega, by simp, hc⟩
      · obtain ⟨m, d, hj, hg, hp2⟩ := ih (k + 1) j h2
        exact ⟨m + 1, d, by omega, by simpa using hg, hp2⟩
    · rw [if_neg hc] at h
      obtain ⟨m, d, hj, hg, hp2⟩ := ih (k + 1) j h
      exact ⟨m + 1, d, by omega, by simpa using hg, hp2⟩

theorem childIdxsTag_mem_node {vn : XNode} {tg : String} {j : Nat}
    (h : j ∈ childIdxsTag vn tg) :
    ∃ ch, nodeAt vn [j] = some ch ∧ ch.tag = tg := by
  rw [childIdxsTag] at h
  obtain ⟨m, c, hj, hg, hp⟩ := idxsFrom_mem _ 0 j h
  have hm : j = m := by omega
  subst hm
  refine ⟨c, ?_, eq_of_beq hp⟩
  cases vn with
  | mk tg2 a tx tl cs =>
    rw [nodeAt, nodeAtL_eq_toList]
    show (match (cs.toList)[j]? with
      | some c => nodeAt c []
      | none => none) = some c
    rw [show (cs.toList)[j]? = some c from hg]
    show nodeAt c [] = some c
    exact nodeAt_nil c

theorem childIdxsTag_head_node {vn : XNode} {tg : String} {i : Nat}
    (h : (childIdxsTag vn tg).head? = some i) :
    ∃ ch, nodeAt vn [i] = some ch ∧ ch.tag = tg := by
  refine childIdxsTag_mem_node ?_
  cases hc : childIdxsTag vn tg with
  | nil => rw [hc] at h; cases h
  | cons x xs =>
    rw [hc] at h
    injection h with h
    exact h ▸ List.mem_cons_self _ _

theorem statusChildIdx_node {root : XNode} {vp : List Nat} {i : Nat}
    (h : statusChildIdx root vp = some i) :
    ∃ vn ch, nodeAt root vp = some vn ∧ nodeAt root (vp ++ [i]) = some ch ∧
      ch.tag = "STATUS" := by
  rw [statusChildIdx] at h
  cases hg : nodeAt root vp with
  | none => rw [hg] at h; cases h
  | some vn =>
    rw [hg] at h
    obtain ⟨ch, hch, htag⟩ := childIdxsTag_head_node h
    exact ⟨vn, ch, rfl, by rw [nodeAt_append, hg]; exact hch, htag⟩

theorem vulnPath_tag {root : XNode} {q : List Nat} (h : q ∈ vulnPathsCkl root) :
    (nodeAt root q).map XNode.tag = some "VULN" := by
  rw [vulnPathsCkl] at h
  obtain ⟨sp, hsp, hq⟩ := List.mem_flatMap.mp h
  cases hg : nodeAt root sp with
  | none => rw [hg] at hq; cases hq
  | some sn =>
    rw [hg] at hq
    obtain ⟨j, hj, hqe⟩ := List.mem_map.mp hq
    obtain ⟨ch, hch, htag⟩ := childIdxsTag_mem_node hj
    rw [← hqe, nodeAt_append, hg]
    show ((nodeAt sn [j]).map XNode.tag) = some "VULN"
    rw [hch]
    simp [htag]

theorem isPrefixOf_singleton_cases {q : List Nat} {i : Nat}
    (h : q.isPrefixOf [i] = true) : q = [] ∨ q = [i] := by
  cases q with
  | nil => exact Or.inl rfl
  | cons j q2 =>
    rw [List.isPrefixOf_cons₂, Bool.and_eq_true] at h
    cases q2 with
    | nil => exact Or.inr (by rw [eq_of_beq h.1])
    | cons x xs => exact absurd h.2 (by rw [List.isPrefixOf_cons_nil]; exact Bool.false_ne_true)

theorem isPrefixOf_snoc_same (x : List Nat) (a b : Nat) :
    List.isPrefixOf (x ++ [a]) (x ++ [b]) = (a == b) := by
  induction x with
  | nil => simp [List.isPrefixOf_cons₂, List.isPrefixOf]
  | cons c t ih => simp [List.isPrefixOf_cons₂, ih]

theorem nodeAt_setTextAt_child_ne {vn : XNode} {i : Nat} {s : Option String}
    {q : List Nat} (h0 : q ≠ []) (h1 : q ≠ [i]) :
    nodeAt (setTextAt vn [i] s) q = nodeAt vn q := by
  have hf : q.isPrefixOf [i] = false := by
    cases hp : q.isPrefixOf [i] with
    | false => rfl
    | true =>
      rcases isPrefixOf_singleton_cases hp with h | h
      · exact absurd h h0
      · exact absurd h h1
  exact nodeAt_setTextAt_outside hf

theorem iterTag_setTextAt_child {vn : XNode} {i : Nat} {s : Option String} {tg : String}
    (htag : (vn.tag == tg) = false)
    (hsi : ∀ ch, nodeAt vn [i] = some ch → (ch.tag == tg) = false) :
    iterTag (setTextAt vn [i] s) tg = iterTag vn tg := by
  rw [iterTag, iterTag, subPaths_setTextAt]
  refine filterMap_congr_mem fun q _ => ?_
  by_cases h0 : q = []
  · subst h0
    rw [nodeAt_nil, nodeAt_nil]
    have htag2 : ((setTextAt vn [i] s).tag == tg) = false := by
      rw [tag_setTextAt]; exact htag
    simp [htag2, htag]
  · by_cases h1 : q = [i]
    · subst h1
      have hpre : List.isPrefixOf [i] [i] = true := by
        simp [List.isPrefixOf_cons₂, List.isPrefixOf]
      rw [nodeAt_setTextAt_within hpre]
      cases hch : nodeAt vn [i] with
      | none => rfl
      | some ch =>
        simp only [Option.map_some']
        have hc1 := hsi ch hch
        have hne1 : ¬ ch.tag = tg := beq_eq_false_iff_ne.mp hc1
        have hne2 : ¬ (setTextAt ch [] s).tag = tg := by
          rw [tag_setTextAt]; exact hne1
        simp [hne1, hne2]
    · rw [nodeAt_setTextAt_child_ne h0 h1]

theorem vulnItems_setTextAt_status {vn : XNode} {i : Nat} {s : Option String}
    (htag : vn.tag = "VULN")
    (hsi : ∀ ch, nodeAt vn [i] = some ch → ch.tag = "STATUS") :
    vulnItems (setTextAt vn [i] s) = vulnItems vn := by
  rw [vulnItems, vulnItems, iterTag_setTextAt_child]
  · rw [htag]; rfl
  · intro ch hch
    rw [hsi ch hch]
    rfl

theorem head?_mem {A : Type} {l : List A} {a : A} (h : l.head? = some a) : a ∈ l := by
  cases l with
  | nil => cases h
  | cons c t =>
    injection h with h
    exact h ▸ List.mem_cons_self _ _

theorem dedupPaths_mem {l : List (List Nat)} {y : List Nat}
    (h : y ∈ dedupPaths l) : y ∈ l := by
  rw [dedupPaths] at h
  suffices h2 : ∀ (l2 acc : List (List Nat)),
      y ∈ l2.foldl (fun acc p => if acc.contains p then acc else acc ++ [p]) acc →
      y ∈ acc ∨ y ∈ l2 by
    rcases h2 l [] h with h3 | h3
    · cases h3
    · exact h3
  intro l2
  induction l2 with
  | nil => intro acc h2; exact Or.inl h2
  | cons c t ih =>
    intro acc h2
    rw [List.foldl_cons] at h2
    by_cases hc : acc.contains c = true
    · rw [if_pos hc] at h2
      rcases ih acc h2 with h3 | h3
      · exact Or.inl h3
      · exact Or.inr (List.mem_cons_of_mem _ h3)
    · rw [if_neg hc] at h2
      rcases ih _ h2 with h3 | h3
      · rcases List.mem_append.mp h3 with h4 | h4
        · exact Or.inl h4
        · have : y = c := List.mem_singleton.mp h4
          subst this
          exact Or.inr (List.mem_cons_self _ _)
      · exact Or.inr (List.mem_cons_of_mem _ h3)

theorem mem_descIdxs {vn : XNode} {tg : String} {q : List Nat}
    (h : q ∈ descIdxs vn tg) :
    q ≠ [] ∧ (nodeAt vn q).map XNode.tag = some tg := by
  rw [descIdxs] at h
  have h2 := (List.mem_filter.mp h).2
  rw [Bool.and_eq_true] at h2
  constructor
  · intro he
    subst he
    simp at h2
  · exact eq_of_beq h2.2

theorem vulnLookupSteps_setTextAt {vn : XNode} {i : Nat} (s : Option String) (key : String)
    (hstat : ∀ ch, nodeAt vn [i] = some ch → ch.tag = "STATUS") :
    evalSteps (setTextAt vn [i] s)
      [.self, .descendant "STIG_DATA", .childText "VULN_ATTRIBUTE" key, .parent,
        .child "ATTRIBUTE_DATA"] =
      evalSteps vn
        [.self, .descendant "STIG_DATA", .childText "VULN_ATTRIBUTE" key, .parent,
          .child "ATTRIBUTE_DATA"] ∧
    (∀ q ∈ evalSteps vn
        [.self, .descendant "STIG_DATA", .childText "VULN_ATTRIBUTE" key, .parent,
          .child "ATTRIBUTE_DATA"],
      nodeAt (setTextAt vn [i] s) q = nodeAt vn q) := by
  have hDeq : ∀ q ∈ evalStep vn (.descendant "STIG_DATA") [[]],
      nodeAt (setTextAt vn [i] s) q = nodeAt vn q := by
    intro q hq
    rw [evalStep] at hq
    rcases List.mem_flatMap.mp hq with ⟨c, hc, hq2⟩
    have hc0 : c = [] := List.mem_singleton.mp hc
    subst hc0
    rw [nodeAt_nil] at hq2
    rcases List.mem_map.mp hq2 with ⟨q2, hq2m, hqe⟩
    obtain ⟨hne, htg⟩ := mem_descIdxs hq2m
    subst hqe
    rw [List.nil_append]
    refine nodeAt_setTextAt_child_ne hne ?_
    intro he
    subst he
    cases hch : nodeAt vn [i] with
    | none => rw [hch] at htg; cases htg
    | some ch =>
      rw [hch] at htg
      have := hstat ch hch
      rw [Option.map_some'] at htg
      have htg2 := Option.some.inj htg
      rw [this] at htg2
      exact absurd htg2 (by decide)
  have hD : evalStep (setTextAt vn [i] s) (.descendant "STIG_DATA") [[]] =
      evalStep vn (.descendant "STIG_DATA") [[]] :=
    evalStep_setTextAt vn [i] s (.descendant "STIG_DATA") rfl [[]]
  have hTeq : ∀ x ∈ evalStep vn (.childText "VULN_ATTRIBUTE" key)
      (evalStep vn (.descendant "STIG_DATA") [[]]),
      nodeAt (setTextAt vn [i] s) x = nodeAt vn x := by
    intro x hx
    rw [evalStep] at hx
    rcases List.mem_flatMap.mp hx with ⟨c, hc, hx2⟩
    cases hg : nodeAt vn c with
    | none => rw [hg] at hx2; cases hx2
    | some n =>
      rw [hg] at hx2
      rcases List.mem_map.mp hx2 with ⟨j, _, hxe⟩
      subst hxe
      rw [nodeAt_append, nodeAt_append, hDeq c hc]
  have hT : evalStep (setTextAt vn [i] s) (.childText "VULN_ATTRIBUTE" key)
        (evalStep vn (.descendant "STIG_DATA") [[]]) =
      evalStep vn (.childText "VULN_ATTRIBUTE" key)
        (evalStep vn (.descendant "STIG_DATA") [[]]) :=
    evalStep_congr_nodes hDeq _
  have hPsub : ∀ y ∈ evalStep vn .parent
      (evalStep vn (.childText "VULN_ATTRIBUTE" key)
        (evalStep vn (.descendant "STIG_DATA") [[]])),
      y ∈ evalStep vn (.descendant "STIG_DATA") [[]] := by
    intro y hy
    rw [evalStep] at hy
    have hy2 := dedupPaths_mem hy
    rcases List.mem_filterMap.mp hy2 with ⟨x, hx, hmap⟩
    -- x came from the childText step: x = c ++ [j]
    rw [evalStep] at hx
    rcases List.mem_flatMap.mp hx with ⟨c, hc, hx2⟩
    cases hg : nodeAt vn c with
    | none => rw [hg] at hx2; cases hx2
    | some n =>
      rw [hg] at hx2
      rcases List.mem_map.mp hx2 with ⟨j, _, hxe⟩
      subst hxe
      -- hmap : (match c ++ [j] with | [] => none | _ => some (c ++ [j]).dropLast) = some y
      have hne : c ++ [j] ≠ [] := by simp
      rw [show (match c ++ [j] with
          | [] => none
          | _ => some (c ++ [j]).dropLast) = some ((c ++ [j]).dropLast) by
        cases hce : c ++ [j] with
        | nil => exact absurd hce hne
        | cons z zs => rfl] at hmap
      have hy3 := Option.some.inj hmap
      rw [List.dropLast_concat] at hy3
      exact hy3 ▸ hc
  have hPeq : ∀ y ∈ evalStep vn .parent
      (evalStep vn (.childText "VULN_ATTRIBUTE" key)
        (evalStep vn (.descendant "STIG_DATA") [[]])),
      nodeAt (setTextAt vn [i] s) y = nodeAt vn y :=
    fun y hy => hDeq y (hPsub y hy)
  have hFeq : ∀ z ∈ evalStep vn (.child "ATTRIBUTE_DATA")
      (evalStep vn .parent
        (evalStep vn (.childText "VULN_ATTRIBUTE" key)
          (evalStep vn (.descendant "STIG_DATA") [[]]))),
      nodeAt (setTextAt vn [i] s) z = nodeAt vn z := by
    intro z hz
    rw [evalStep] at hz
    rcases List.mem_flatMap.mp hz with ⟨c, hc, hz2⟩
    cases hg : nodeAt vn c with
    | none => rw [hg] at hz2; cases hz2
    | some n =>
      rw [hg] at hz2
      rcases List.mem_map.mp hz2 with ⟨j, _, hze⟩
      subst hze
      rw [nodeAt_append, nodeAt_append, hPeq c hc]
  have hF : evalStep (setTextAt vn [i] s) (.child "ATTRIBUTE_DATA")
        (evalStep vn .parent
          (evalStep vn (.childText "VULN_ATTRIBUTE" key)
            (evalStep vn (.descendant "STIG_DATA") [[]]))) =
      evalStep vn (.child "ATTRIBUTE_DATA")
        (evalStep vn .parent
          (evalStep vn (.childText "VULN_ATTRIBUTE" key)
            (evalStep vn (.descendant "STIG_DATA") [[]]))) :=
    evalStep_congr_nodes hPeq _
  constructor
  · simp only [evalSteps, List.foldl_cons, List.foldl_nil]
    show evalStep (setTextAt vn [i] s) (.child "ATTRIBUTE_DATA")
        (evalStep (setTextAt vn [i] s) .parent
          (evalStep (setTextAt vn [i] s) (.childText "VULN_ATTRIBUTE" key)
            (evalStep (setTextAt vn [i] s) (.descendant "STIG_DATA")
              (evalStep (setTextAt vn [i] s) .self [[]])))) = _
    rw [show evalStep (setTextAt vn [i] s) .self [[]] = [[]] from rfl, hD, hT,
      show ∀ C, evalStep (setTextAt vn [i] s) .parent C = evalStep vn .parent C
        from fun C => rfl, hF]
    rfl
  · intro q hq
    simp only [evalSteps, List.foldl_cons, List.foldl_nil] at hq
    exact hFeq q (by
      show q ∈ evalStep vn (.child "ATTRIBUTE_DATA")
        (evalStep vn .parent
          (evalStep vn (.childText "VULN_ATTRIBUTE" key)
            (evalStep vn (.descendant "STIG_DATA")
              (evalStep vn .self [[]]))))
      exact hq)

theorem isPrefixOf_self_append (l r : List Nat) : List.isPrefixOf l (l ++ r) = true := by
  induction l with
  | nil => simp
  | cons c t ih => simp [List.isPrefixOf_cons₂, ih]

theorem isPrefixOf_self (l : List Nat) : List.isPrefixOf l l = true := by
  have := isPrefixOf_self_append l []
  rwa [List.append_nil] at this

theorem nodeAt_child_of_append {root : XNode} {vp : List Nat} {i : Nat} {vn ch : XNode}
    (hvn : nodeAt root vp = some vn) (hch : nodeAt root (vp ++ [i]) = some ch) :
    nodeAt vn [i] = some ch := by
  rw [nodeAt_append, hvn] at hch
  exact hch

theorem etFindNode_vulnLookup_setTextAt {vn : XNode} {i : Nat} {s : Option String}
    (key path : String)
    (hp : parsePath [] path = some [.self, .descendant "STIG_DATA",
      .childText "VULN_ATTRIBUTE" key, .parent, .child "ATTRIBUTE_DATA"])
    (hstat : ∀ ch, nodeAt vn [i] = some ch → ch.tag = "STATUS") :
    etFindNode (setTextAt vn [i] s) path [] = etFindNode vn path [] := by
  obtain ⟨heval, hnodes⟩ := vulnLookupSteps_setTextAt s key hstat
  rw [etFindNode, etFindNode, etFindPath, etFindPath, etFindAllPaths, etFindAllPaths, hp]
  simp only [Option.map_some']
  rw [heval]
  cases hh : (evalSteps vn [.self, .descendant "STIG_DATA",
      .childText "VULN_ATTRIBUTE" key, .parent, .child "ATTRIBUTE_DATA"]).head? with
  | none => rfl
  | some q =>
    show some (nodeAt (setTextAt vn [i] s) q) = some (nodeAt vn q)
    rw [hnodes q (head?_mem hh)]

theorem vulnNumAt_setTextAt_status {root : XNode} {vp : List Nat} {i : Nat} {v : String}
    (hst : statusChildIdx root vp = some i) :
    vulnNumAt (setTextAt root (vp ++ [i]) (some v)) vp = vulnNumAt root vp := by
  obtain ⟨vn, ch, hvn, hch, htag⟩ := statusChildIdx_node hst
  rw [vulnNumAt, vulnNumAt, nodeAt_setTextAt_within (isPrefixOf_self_append vp [i]), hvn]
  simp only [Option.map_some']
  rw [show List.drop vp.length (vp ++ [i]) = [i] from by
    rw [List.drop_left]]
  rw [etFindNode_vulnLookup_setTextAt "Vuln_Num" _ (by decide)
    (fun ch2 hch2 => by
      rw [nodeAt_child_of_append hvn hch] at hch2
      rw [← Option.some.inj hch2]
      exact htag)]

theorem vulnGet_setTextAt_status {vn : XNode} {i : Nat} {v : String} {key : String}
    (hp : parsePath []
      (".//STIG_DATA/VULN_ATTRIBUTE[.=\"" ++ key ++ "\"]/../ATTRIBUTE_DATA") =
      some [.self, .descendant "STIG_DATA", .childText "VULN_ATTRIBUTE" key, .parent,
        .child "ATTRIBUTE_DATA"])
    (hstat : ∀ ch, nodeAt vn [i] = some ch → ch.tag = "STATUS") :
    (VulnNode.ofNode (setTextAt vn [i] (some v))).get key =
      (VulnNode.ofNode vn).get key := by
  obtain ⟨heval, hnodes⟩ := vulnLookupSteps_setTextAt (some v) key hstat
  unfold DictNode.get VulnNode.ofNode
  rw [etFindPath, etFindPath, etFindAllPaths, etFindAllPaths]
  rw [hp]
  simp only [Option.map_some']
  rw [heval]
  cases hh : (evalSteps vn [.self, .descendant "STIG_DATA",
      .childText "VULN_ATTRIBUTE" key, .parent, .child "ATTRIBUTE_DATA"]).head? with
  | none => rfl
  | some q =>
    show Except.ok ((nodeAt (setTextAt vn [i] (some v)) q).bind XNode.text) =
      Except.ok ((nodeAt vn q).bind XNode.text)
    rw [hnodes q (head?_mem hh)]

theorem vulnFieldAt_setTextAt_status {root : XNode} {vp : List Nat} {i : Nat}
    {v : String} {t2 : String} (hst : statusChildIdx root vp = some i)
    (hne : t2 ≠ "STATUS") :
    vulnFieldAt (setTextAt root (vp ++ [i]) (some v)) vp t2 = vulnFieldAt root vp t2 := by
  obtain ⟨vn, ch, hvn, hch, htag⟩ := statusChildIdx_node hst
  rw [vulnFieldAt, vulnFieldAt, nodeAt_setTextAt_within (isPrefixOf_self_append vp [i]),
    hvn]
  simp only [Option.map_some']
  rw [show List.drop vp.length (vp ++ [i]) = [i] from by rw [List.drop_left]]
  rw [childIdxsTag_setTextAt]
  cases hhd : (childIdxsTag vn t2).head? with
  | none => rfl
  | some j =>
    obtain ⟨ch2, hch2, htag2⟩ := childIdxsTag_head_node hhd
    have hji : j ≠ i := by
      intro he
      subst he
      rw [nodeAt_child_of_append hvn hch] at hch2
      have hcc : ch = ch2 := Option.some.inj hch2
      rw [← hcc] at htag2
      rw [htag] at htag2
      exact hne htag2.symm
    have hnp : (vp ++ [j]).isPrefixOf (vp ++ [i]) = false := by
      rw [isPrefixOf_snoc_same]
      exact beq_eq_false_iff_ne.mpr hji
    show Except.ok ((nodeAt (setTextAt root (vp ++ [i]) (some v)) (vp ++ [j])).bind
        XNode.text) =
      Except.ok ((nodeAt root (vp ++ [j])).bind XNode.text)
    rw [nodeAt_setTextAt_outside hnp]

theorem vulnStatusAt_setTextAt {root : XNode} {vp : List Nat} {i : Nat} {v : String}
    (hst : statusChildIdx root vp = some i) :
    vulnStatusAt (setTextAt root (vp ++ [i]) (some v)) vp = .ok (some v) := by
  obtain ⟨vn, ch, hvn, hch, htag⟩ := statusChildIdx_node hst
  rw [vulnStatusAt, statusChildIdx_setTextAt, hst]
  show Except.ok ((nodeAt (setTextAt root (vp ++ [i]) (some v)) (vp ++ [i])).bind
      XNode.text) = Except.ok (some v)
  rw [nodeAt_setTextAt_within (isPrefixOf_self (vp ++ [i])), hch]
  simp only [Option.map_some']
  rw [show List.drop (vp ++ [i]).length (vp ++ [i]) = [] from List.drop_length _]
  simp [text_setTextAt_nil]

theorem vulnItemsAt_setTextAt {root : XNode} {vp : List Nat} {i : Nat} {v : String}
    (hst : statusChildIdx root vp = some i)
    (hvptag : (nodeAt root vp).map XNode.tag = some "VULN") :
    (nodeAt (setTextAt root (vp ++ [i]) (some v)) vp).map vulnItems =
      (nodeAt root vp).map vulnItems := by
  obtain ⟨vn, ch, hvn, hch, htag⟩ := statusChildIdx_node hst
  rw [nodeAt_setTextAt_within (isPrefixOf_self_append vp [i]), hvn]
  simp only [Option.map_some']
  rw [show List.drop vp.length (vp ++ [i]) = [i] from by rw [List.drop_left]]
  rw [hvn] at hvptag
  have htagv : vn.tag = "VULN" := Option.some.inj hvptag
  rw [vulnItems_setTextAt_status htagv (fun ch2 hch2 => by
    rw [nodeAt_child_of_append hvn hch] at hch2
    rw [← Option.some.inj hch2]
    exact htag)]

theorem bool_not_true {b : Bool} (h : (!b) = true) : b = false := by
  cases b
  · rfl
  · cases h

/-- C6: loading a checklist, setting one vulnerability's status, saving
and reloading yields a document whose tree is the original with exactly
that status text replaced: the vulnerability's status reads back as the
new value, and every other field — the asset view, every benchmark-info
view, every other vulnerability's entire subtree, and the mutated
vulnerability's other review fields, keyed attributes (`items()` and
`get`) and `vuln_num` — is unchanged.  Hypotheses: the vulnerability was
loaded (`vp ∈ vulnPathsCkl`), its `STATUS` child resolves, the save
succeeded, and the locality side conditions of well-formed checklists
(`statusMutationLocal`) hold. -/
theorem status_roundtrip_preserves_rest
    (fs fs2 : FS) (src dst : String) (root : XNode) (vp : List Nat) (i : Nat)
    (v : String) (frc : Bool)
    (_hload : Checklist.loadTree fs src = some root)
    (hvp : vp ∈ vulnPathsCkl root)
    (hst : statusChildIdx root vp = some i)
    (hlocal : statusMutationLocal root vp (vp ++ [i]) = true)
    (hsave : Checklist.save (setTextAt root (vp ++ [i]) (some v)) fs dst frc =
      (.ok (), fs2)) :
    setVulnStatusAt root vp v = .ok (setTextAt root (vp ++ [i]) (some v)) ∧
    Checklist.loadTree fs2 dst = some (setTextAt root (vp ++ [i]) (some v)) ∧
    vulnStatusAt (setTextAt root (vp ++ [i]) (some v)) vp = .ok (some v) ∧
    vulnPathsCkl (setTextAt root (vp ++ [i]) (some v)) = vulnPathsCkl root ∧
    (∀ q ∈ vulnPathsCkl root, q ≠ vp →
      nodeAt (setTextAt root (vp ++ [i]) (some v)) q = nodeAt root q) ∧
    assetItemsCkl (setTextAt root (vp ++ [i]) (some v)) = assetItemsCkl root ∧
    infoItemsCkl (setTextAt root (vp ++ [i]) (some v)) = infoItemsCkl root ∧
    (∀ t2, t2 ≠ "STATUS" →
      vulnFieldAt (setTextAt root (vp ++ [i]) (some v)) vp t2 =
        vulnFieldAt root vp t2) ∧
    (nodeAt (setTextAt root (vp ++ [i]) (some v)) vp).map vulnItems =
      (nodeAt root vp).map vulnItems ∧
    vulnNumAt (setTextAt root (vp ++ [i]) (some v)) vp = vulnNumAt root vp ∧
    (∀ key : String,
      parsePath []
          (".//STIG_DATA/VULN_ATTRIBUTE[.=\"" ++ key ++ "\"]/../ATTRIBUTE_DATA") =
        some [.self, .descendant "STIG_DATA", .childText "VULN_ATTRIBUTE" key,
          .parent, .child "ATTRIBUTE_DATA"] →
      ∀ vn, nodeAt root vp = some vn →
        (VulnNode.ofNode (setTextAt vn [i] (some v))).get key =
          (VulnNode.ofNode vn).get key) := by
  obtain ⟨vn, ch, hvn, hch, htagch⟩ := statusChildIdx_node hst
  rw [statusMutationLocal, Bool.and_eq_true, Bool.and_eq_true] at hlocal
  obtain ⟨⟨hA, hB⟩, hC⟩ := hlocal
  refine ⟨?_, ?_, vulnStatusAt_setTextAt hst, vulnPathsCkl_setTextAt root _ _,
    ?_, ?_, ?_, fun t2 hne => vulnFieldAt_setTextAt_status hst hne,
    vulnItemsAt_setTextAt hst (vulnPath_tag hvp), vulnNumAt_setTextAt_status hst,
    ?_⟩
  · rw [setVulnStatusAt, hst]
  · rw [Checklist.save] at hsave
    cases hfs : fs dst with
    | some old =>
      rw [hfs] at hsave
      cases frc with
      | false =>
        rw [if_neg (by exact Bool.false_ne_true)] at hsave
        have h1 := congrArg Prod.fst hsave
        cases h1
      | true =>
        rw [if_pos rfl] at hsave
        have h2 := congrArg Prod.snd hsave
        simp only at h2
        rw [Checklist.loadTree, ← h2]
        simp
    | none =>
      rw [hfs] at hsave
      have h2 := congrArg Prod.snd hsave
      simp only at h2
      rw [Checklist.loadTree, ← h2]
      simp
  · intro q hq hqne
    have hq2 := List.all_eq_true.mp hA q hq
    rw [Bool.or_eq_true] at hq2
    rcases hq2 with hq3 | hq3
    · exact absurd (eq_of_beq hq3) hqne
    · exact nodeAt_setTextAt_outside (bool_not_true hq3)
  · rw [assetItemsCkl, assetItemsCkl, assetPathCkl_setTextAt]
    cases ha : assetPathCkl root with
    | none => rfl
    | some a =>
      rw [ha] at hB
      show ((nodeAt (setTextAt root (vp ++ [i]) (some v)) a).map
          fun n => (AssetNode.ofNode n).items) =
        ((nodeAt root a).map fun n => (AssetNode.ofNode n).items)
      rw [nodeAt_setTextAt_outside (bool_not_true hB)]
  · rw [infoItemsCkl, infoItemsCkl, stigPathsCkl_setTextAt]
    refine map_congr_mem fun sp hsp => ?_
    rw [infoPathCkl_setTextAt]
    cases hip : infoPathCkl root sp with
    | none => rfl
    | some ip =>
      have hsp2 := List.all_eq_true.mp hC sp hsp
      rw [hip] at hsp2
      show ((nodeAt (setTextAt root (vp ++ [i]) (some v)) ip).map stigInfoItems) =
        ((nodeAt root ip).map stigInfoItems)
      rw [nodeAt_setTextAt_outside (bool_not_true hsp2)]
  · intro key hp vn2 hvn2
    have hvv : vn2 = vn := by
      rw [hvn] at hvn2
      exact (Option.some.inj hvn2).symm
    subst hvv
    refine vulnGet_setTextAt_status hp fun ch2 hch2 => ?_
    rw [nodeAt_child_of_append hvn hch] at hch2
    rw [← Option.some.inj hch2]
    exact htagch

/-- Witness for C6 on the concrete two-vulnerability checklist: set the
first vulnerability's status to `Open` through a save to a fresh path. -/
theorem status_roundtrip_preserves_rest_witness :
    vulnStatusAt (setTextAt cklDoc ([1, 0, 1] ++ [1]) (some "Open")) [1, 0, 1] =
      .ok (some "Open") ∧
    vulnNumAt (setTextAt cklDoc ([1, 0, 1] ++ [1]) (some "Open")) [1, 0, 1] =
      vulnNumAt cklDoc [1, 0, 1] := by
  have h := status_roundtrip_preserves_rest fsEx
    (fun q => if q = "out.ckl" then
      some (setTextAt cklDoc ([1, 0, 1] ++ [1]) (some "Open")) else fsEx q)
    "src.ckl" "out.ckl" cklDoc [1, 0, 1] 1 "Open" false rfl (by decide) (by decide)
    (by decide) rfl
  exact ⟨h.2.2.1, h.2.2.2.2.2.2.2.2.2.1⟩
